import Mathlib

/-!
Verification development for the zebra-puzzle solver (`src/solver/solver.ts`,
`src/solver/clueEval.ts`, `src/compiler/ast.ts` and the iterative CLI driver).

The TypeScript core is embedded shallowly:

* The possibility matrix `Record<string, boolean[]>` becomes an ordered
  association list `Matrix := List (String × List Bool)`; JS in-place cell
  mutation becomes explicit matrix threading.  Reading a missing key yields
  the empty row and writing to a missing key is a no-op (in JS such accesses
  would raise a `TypeError`; every key used by the solver exists in the
  matrix, so this corner is outside the behaviour the theorems below rely
  on).  Reading past the end of a row yields `false` (JS: `undefined`, which
  is falsy in every read position of the source).  Writing past the end of a
  row *extends* the row, exactly as assignment past `length` extends a JS
  array (the padding cells of a sparse JS array read back as falsy).
* JS numbers are modelled as `NumV := Option ℚ`, `none` playing the role of
  `NaN` (`parseInt` of a non-numeric item name, `%`/`/` by zero).  The model
  is exact where the solver's arithmetic is exact; IEEE rounding of `/` is
  not modelled (the values in the theorems below are exactly representable).
* `null`/`undefined` results of `parseArithmetic` become an outer `Option`:
  `Option NumV`, `none` = "not currently determined".
* Exceptions become an explicit `Thrown` value: the two sentinel values
  `throw true` / `throw false` of `getTrueIndex`, `SolverError`, and a
  `typeError` constructor for the JS `TypeError`s the source can raise on
  malformed input.
* The mutable AST fields `solved` and `states` are threaded explicitly:
  every evaluator returns the expression with its memo fields updated,
  mirroring the in-place mutation of the source.
-/

namespace Zebra

/-- Exceptions thrown inside the solver: the two boolean sentinels thrown by
`getTrueIndex`, `SolverError (message, [line, column])`, and JS `TypeError`s
(raised by the source on inputs the parser never produces). -/
inductive Thrown where
  | sentinel (b : Bool)
  | solverError (msg : String) (pos : Nat × Nat)
  | typeError (msg : String)
  deriving Repr, DecidableEq

/-- A JS number: `some q` is the (exactly represented) value, `none` is `NaN`. -/
abbrev NumV := Option ℚ

/-- JS `parseInt`: parse the leading run of decimal digits; `NaN` (`none`)
when the string does not start with a digit.  (Leading whitespace/sign and
non-decimal prefixes of `parseInt` are not used by the solver's item names.) -/
def parseIntJS (s : String) : NumV :=
  let digits := s.toList.takeWhile Char.isDigit
  if digits.isEmpty then none
  else some ((digits.foldl (fun n c => 10 * n + (c.toNat - 48)) 0 : Nat) : ℚ)

/-- JS `+` with NaN propagation. -/
def jsAdd : NumV → NumV → NumV
  | some a, some b => some (a + b)
  | _, _ => none

/-- JS `-` with NaN propagation. -/
def jsSub : NumV → NumV → NumV
  | some a, some b => some (a - b)
  | _, _ => none

/-- JS `*` with NaN propagation.  (`Infinity * 0 = NaN` never arises: the
model has no infinities, see `jsDiv`.) -/
def jsMul : NumV → NumV → NumV
  | some a, some b => some (a * b)
  | _, _ => none

/-- JS `/`.  The source uses plain floating-point division (`l / r`), not
integer division.  Division by zero produces `±Infinity`/`NaN` in JS; the
model collapses those non-finite results to `none`. -/
def jsDiv : NumV → NumV → NumV
  | some a, some b => if b = 0 then none else some (a / b)
  | _, _ => none

/-- Truncation toward zero, as JS `%` uses. -/
def ratTrunc (q : ℚ) : ℤ := if 0 ≤ q then ⌊q⌋ else ⌈q⌉

/-- JS `%` (remainder with the sign of the dividend); `x % 0 = NaN`. -/
def jsMod : NumV → NumV → NumV
  | some a, some b => if b = 0 then none else some (a - b * (ratTrunc (a / b) : ℚ))
  | _, _ => none

/-- JS `Math.abs(l - r)` with NaN propagation (the `diff` operator). -/
def jsDiffAbs : NumV → NumV → NumV
  | some a, some b => some |a - b|
  | _, _ => none

/-- JS `==` on numbers: `NaN` is equal to nothing. -/
def jsEq : NumV → NumV → Bool
  | some a, some b => a = b
  | _, _ => false

/-- JS `!=` on numbers: every comparison with `NaN` is `true`. -/
def jsNe (a b : NumV) : Bool := !(jsEq a b)

/-- JS `<`: `false` whenever `NaN` is involved. -/
def jsLt : NumV → NumV → Bool
  | some a, some b => a < b
  | _, _ => false

/-- JS `<=`: `false` whenever `NaN` is involved. -/
def jsLe : NumV → NumV → Bool
  | some a, some b => a ≤ b
  | _, _ => false

/-- JS `>`. -/
def jsGt (a b : NumV) : Bool := jsLt b a

/-- JS `>=`. -/
def jsGe (a b : NumV) : Bool := jsLe b a

/-! ## The possibility matrix -/

/-- `Matrix = Record<string, boolean[]>`, as an insertion-ordered
association list. -/
abbrev Matrix := List (String × List Bool)

/-- Row lookup, `matrix[key]`; a missing key reads as the empty row. -/
def Matrix.getRow (m : Matrix) (key : String) : List Bool :=
  match m.find? (fun kv => kv.1 = key) with
  | some kv => kv.2
  | none => []

/-- Cell read `matrix[key][i]`; out-of-range reads are `undefined`, which
every use site of the source treats as `false`. -/
def Matrix.getCell (m : Matrix) (key : String) (i : Nat) : Bool :=
  (m.getRow key).getD i false

/-- JS array element assignment: in range it updates; past the end it
extends the array (the new intermediate cells read back as falsy). -/
def jsSetElem (row : List Bool) (i : Nat) (b : Bool) : List Bool :=
  if i < row.length then row.set i b
  else row ++ List.replicate (i - row.length) false ++ [b]

/-- Cell write `matrix[key][i] = b` at a signed index: JS silently accepts a
negative index (it becomes a non-element property, invisible to all reads the
solver performs), so negative writes are no-ops; writes on a missing key are
outside the solver's behaviour (JS would throw) and are modelled as no-ops. -/
def Matrix.setCell (m : Matrix) (key : String) (i : ℤ) (b : Bool) : Matrix :=
  if 0 ≤ i then
    m.map (fun kv => if kv.1 = key then (kv.1, jsSetElem kv.2 i.toNat b) else kv)
  else m

/-- Total number of `true` cells, the termination measure of the
fixed-point iteration. -/
def Matrix.countTrue (m : Matrix) : Nat :=
  (m.map (fun kv => kv.2.countP id)).sum

/-- The key list together with row lengths: the "dimensions" that the
narrowing invariant says are stable. -/
def Matrix.shape (m : Matrix) : List (String × Nat) :=
  m.map (fun kv => (kv.1, kv.2.length))

/-! ## The clue AST (`src/compiler/ast.ts`)

Each TS node carries `type`, `operator`, operand children, a `returns` tag,
a `dollar` flag, a mutable `solved` tri-state, and (on relational nodes) a
mutable `states` memo.  The constructor encodes `type`; `operator` stays a
string to mirror the string-keyed dispatch tables; `returns` is recovered
from the constructor exactly as the parser assigns it (`Expr.returnsArith`);
`solved`, `states`, `dollar` and `pos` live on the node wrapper. -/

mutual
inductive Core where
  | identifier (symbol : String)
  | numericLiteral (value : ℚ)
  | numericIdentifier (symbol category : String)
  | setLiteral (elements : List Expr)
  | rangeLiteral (start stop : Expr)
  | arithmeticBinary (op : String) (l r : Expr)
  | logicalUnary (op : String) (a : Expr)
  | logicalBinary (op : String) (a b : Expr)
  | logicalOperation (op : String) (operands : List Expr)
  | relational (op : String) (a b : Expr)
  | positional (op : String) (a b : Expr) (distance : Option Nat)
  | inOperator (a b : Expr)
  | truthsOperator (s : Expr)
inductive Expr where
  | mk (core : Core) (solved : Option Bool) (states : Option NumV × Option NumV)
      (dollar : Bool) (pos : Nat × Nat)
end

/-- The node's `type`/`operator`/operand structure. -/
def Expr.core : Expr → Core
  | .mk c _ _ _ _ => c

/-- The mutable `solved` field (`undefined` = `none`). -/
def Expr.solved : Expr → Option Bool
  | .mk _ s _ _ _ => s

/-- The mutable `states` memo of relational nodes (`states.l`, `states.r`);
`none` covers both "absent" and "stored null", which the source's
`??`-recomputation treats identically. -/
def Expr.states : Expr → Option NumV × Option NumV
  | .mk _ _ st _ _ => st

/-- The `dollar` flag: the clue mentions the dynamic position `$`. -/
def Expr.dollar : Expr → Bool
  | .mk _ _ _ d _ => d

/-- Source position `[line, column]`. -/
def Expr.pos : Expr → Nat × Nat
  | .mk _ _ _ _ p => p

/-- Replace the node's `solved` field. -/
def Expr.withSolved (e : Expr) (s : Option Bool) : Expr :=
  match e with
  | .mk c _ st d p => .mk c s st d p

/-- Replace the node's `states` memo. -/
def Expr.withStates (e : Expr) (st : Option NumV × Option NumV) : Expr :=
  match e with
  | .mk c s _ d p => .mk c s st d p

/-- `identifier.symbol` — present on `Identifier` and `NumericIdentifier`
nodes; `none` models the `undefined` the source would read elsewhere. -/
def Expr.symbol : Expr → Option String
  | .mk (.identifier s) _ _ _ _ => some s
  | .mk (.numericIdentifier s _) _ _ _ _ => some s
  | _ => none

/-- The parser's `returns` tag is `'arithmetic'` exactly on numeric
literals, numeric identifiers, arithmetic operations and `truths`. -/
def Expr.returnsArith : Expr → Bool
  | .mk (.numericLiteral _) _ _ _ _ => true
  | .mk (.numericIdentifier _ _) _ _ _ _ => true
  | .mk (.arithmeticBinary _ _ _) _ _ _ _ => true
  | .mk (.truthsOperator _) _ _ _ _ => true
  | _ => false

/-- `getTrueIndex` (`clueEval.ts`): index of the unique `true` cell; throws
the sentinel `true` on a second `true`, the sentinel `false` when none. -/
def getTrueIndex (ar : List Bool) : Except Thrown Nat :=
  go ar 0 none
where
  /-- The loop of `getTrueIndex`, carrying the running index. -/
  go : List Bool → Nat → Option Nat → Except Thrown Nat
  | [], _, none => .error (.sentinel false)
  | [], _, some idx => .ok idx
  | b :: rest, i, acc =>
    if b then
      match acc with
      | none => go rest (i + 1) (some i)
      | some _ => .error (.sentinel true)
    else go rest (i + 1) acc

/-! ## Solver configuration (`SolverConfig`, minus the mutable stats) -/

structure SolverConfig where
  categories : List (String × List String)
  greatCategories : List String
  nameKV : List (String × String)
  itemOptions : List String
  count : Nat
  combinations : List (List (List Nat))
  deriving Repr

/-- `sc.categories[name]`, a missing category reading as `undefined`. -/
def SolverConfig.category? (sc : SolverConfig) (name : String) : Option (List String) :=
  (sc.categories.find? (fun kv => kv.1 = name)).map (·.2)

/-- The identifier resolver handed to the evaluators
(`id => parseIdentifier(id, d)`): it may fail with a `SolverError`. -/
abbrev IdP := Expr → Except Thrown String

end Zebra

namespace Zebra

/-! ## Identifier resolver (`parseIdentifier` in `solver.ts`) -/

/-- JS `Object.fromEntries` followed by property lookup: with duplicate keys
the last entry wins. -/
def objLookup (l : List (String × String)) (k : String) : Option String :=
  (l.reverse.find? (fun kv => kv.1 = k)).map (·.2)

/-- `name.startsWith(pre)`, computed on the character lists. -/
def jsStartsWith (s pre : String) : Bool :=
  List.isPrefixOf pre.toList s.toList

/-- `name.replace(/[#.]/g, '')`. -/
def stripHashDots (name : String) : String :=
  (name.toList.filter (fun c => !(c == '#' || c == '.'))).asString

/-- `parseIdentifier(identifier, dollar)`: resolve via the short-name table,
then the `#`/`$` special forms, then the full `category.item` form; an
unresolved name fails with a `SolverError` carrying the node's position. -/
def parseIdentifier (sc : SolverConfig) (dollar : Nat) (identifier : Expr) :
    Except Thrown String :=
  match identifier.symbol with
  | none => .error (.typeError "identifier.symbol is undefined")
  | some sym =>
    let name := (objLookup sc.nameKV sym).getD sym
    if jsStartsWith name "#" then .ok ("#." ++ stripHashDots name)
    else if name = "$" then .ok ("#." ++ toString dollar)
    else if sc.itemOptions.contains name then .ok name
    else .error (.solverError ("Identifier " ++ sym ++ " not found.") identifier.pos)

/-! ## Precomputed column combinations (`generateCombinations`) -/

/-- The `backtrack(start, depth)` recursion: all ascending `rem`-element
subsets of `[start, n)`, in the source's lexicographic emission order. -/
def gcGo (n : Nat) : Nat → Nat → List (List Nat)
  | _, 0 => [[]]
  | start, rem + 1 =>
    (List.range' start (n - start)).flatMap (fun i => (gcGo n (i + 1) rem).map (i :: ·))

/-- `generateCombinations(n, k)`. -/
def generateCombinations (n k : Nat) : List (List Nat) := gcGo n 0 k

/-- `generateAllCombinations(count)`: index `k` holds the `k`-subsets of
`[0, count)`, with a placeholder at index 0. -/
def generateAllCombinations (count : Nat) : List (List (List Nat)) :=
  [[]] ++ (List.range' 1 (count - 1)).map (fun i => generateCombinations count i)

/-! ## Subset elimination engine (`eliminateImpossibleOptionsByCategory`)

The source builds `rows` as live aliases into the matrix, so later
combinations observe earlier clears; the embedding re-reads the threaded
matrix instead.  Note the inner clearing loops of the source run `i` and `j`
up to the *loop variable* `count` (the subset size `k`, which shadows
`sc.count` inside the `for` loop), not up to `sc.count`; the embedding
reproduces this faithfully. -/

def eliminateImpossibleOptionsByCategory (m : Matrix) (category : String)
    (sc : SolverConfig) : Matrix :=
  let items := (sc.category? category).getD []
  let key := fun (i : Nat) => category ++ "." ++ (items.getD i "undefined")
  (List.range' 1 (sc.count - 1)).foldl (fun m k =>
    let requiredRows := sc.count - k
    let columnCombinations := sc.combinations.getD k []
    columnCombinations.foldl (fun m combination =>
      let matchingRows := (List.range sc.count).filter (fun i =>
        combination.all (fun col => !(m.getCell (key i) col)))
      if matchingRows.length < requiredRows then m
      else
        (List.range k).foldl (fun m i =>
          if matchingRows.contains i then m
          else (List.range k).foldl (fun m j =>
            if combination.contains j then m
            else m.setCell (key i) (j : ℤ) false) m) m) m) m

/-- `eliminateImpossibleOptions(m, sc)`: run the per-category engine over the
categories in insertion order. -/
def eliminateImpossibleOptions (m : Matrix) (sc : SolverConfig) : Matrix :=
  sc.categories.foldl (fun m kv => eliminateImpossibleOptionsByCategory m kv.1 sc) m

/-! ## Positional propagation helpers (`clueEval.ts`) -/

/-- `positionalDistanceEval(m, sc, l, r, dist)`: keep position pairs
`(i, i+dist)` where both ends remain possible, then clear the trailing
cells of `l` and the leading cells of `r`.  With `dist > sc.count` the
second loop writes past the end of row `r` (extending it, as in JS) and at
negative indices of row `l` (no-ops, as in JS). -/
def positionalDistanceEval (m : Matrix) (sc : SolverConfig) (l r : String)
    (dist : Nat) : Matrix :=
  let m := (List.range (sc.count - dist)).foldl (fun m i =>
    if m.getCell l i && m.getCell r (i + dist) then m
    else (m.setCell l (i : ℤ) false).setCell r ((i : ℤ) + dist) false) m
  (List.range dist).foldl (fun m (i : Nat) =>
    (m.setCell l ((sc.count : ℤ) - (dist : ℤ) + (i : ℤ)) false).setCell r (i : ℤ) false) m

/-- One directional sweep of the `--` evaluator: clear `clearKey` at each
index in turn, stopping after the first index where `checkKey` is (still)
possible.  (The clear happens before the check, as in the source.) -/
def sweepClear (clearKey checkKey : String) : List Nat → Matrix → Matrix
  | [], m => m
  | i :: rest, m =>
    let m := m.setCell clearKey (i : ℤ) false
    if m.getCell checkKey i then m else sweepClear clearKey checkKey rest m

/-! ## Short-name table (`shortNamesMap`) -/

structure ShortNames where
  nameKV : List (String × String)
  itemOptions : List String
  count : Nat
  deriving Repr, DecidableEq

/-- One step of the `kva` scan: a colliding short name is *removed* from the
table (`splice`), a fresh one is appended. -/
def kvaStep (kva : List (String × String)) (item full : String) :
    List (String × String) :=
  if kva.any (fun kv => kv.1 = item) then kva.eraseP (fun kv => kv.1 = item)
  else kva ++ [(item, full)]

/-- The per-category loop of `shortNamesMap`, threading the `kva` table and
the `items` list. -/
def snGo (count : Nat) (great : List String) :
    List (String × List String) → List (String × String) → List String →
    Except Thrown (List (String × String) × List String)
  | [], kva, items => .ok (kva, items)
  | (cat, its) :: rest, kva, items =>
    if its.length ≠ count && !great.contains cat then
      .error (.solverError "All categories must have the same number of items." (1, 1))
    else
      let acc := its.foldl
        (fun (acc : List (String × String) × List String) item =>
          (kvaStep acc.1 item (cat ++ "." ++ item), acc.2 ++ [cat ++ "." ++ item]))
        (kva, items)
      snGo count great rest acc.1 acc.2

/-- `shortNamesMap(categories, greatCategories)`: `count` is the length of
the first strict category (the source crashes when none exists); item short
names toggle in and out of `kva` as they repeat across categories. -/
def shortNamesMap (categories : List (String × List String))
    (greatCategories : List String) : Except Thrown ShortNames :=
  if categories.isEmpty then .error (.solverError "No categories provided." (1, 1))
  else match categories.find? (fun kv => !greatCategories.contains kv.1) with
  | none => .error (.typeError "reading length of undefined strict category")
  | some first =>
    match snGo first.2.length greatCategories categories [] [] with
    | .error t => .error t
    | .ok (kva, items) => .ok ⟨kva, items, first.2.length⟩

end Zebra

namespace Zebra

/-! ## Small evaluation helpers shared by the mutual evaluator -/

/-- The five binary logical connectives of the checker table
(`clueCheckers.LogicalBinaryOperation`); `none` = no checker for this
operator. -/
def logicalBinaryCombine (op : String) : Option (Bool → Bool → Bool) :=
  match op with
  | "&" => some (fun a b => a && b)
  | "|" => some (fun a b => a || b)
  | "^" => some (fun a b => a != b)
  | "<=>" => some (fun a b => a == b)
  | "=>" => some (fun a b => !a || b)
  | _ => none

/-- The six relational comparators (shared text of `relationalEval` and
`checkRelational`); `none` = operator not in the table. -/
def relationalOk (op : String) : Option (NumV → NumV → Bool) :=
  match op with
  | "==" => some jsEq
  | ">" => some jsGt
  | "<" => some jsLt
  | ">=" => some jsGe
  | "<=" => some jsLe
  | "!=" => some jsNe
  | _ => none

/-- The element loop of the `in` *checker*, identifier-in-set case: resolve
each set member, demand a singleton row, succeed on the first column match. -/
def inChkSet (li : Nat) (m : Matrix) (p : IdP) : List Expr → Except Thrown Bool
  | [] => .ok false
  | s :: rest =>
    match p s with
    | .error t => .error t
    | .ok rkey =>
      match getTrueIndex (m.getRow rkey) with
      | .error t => .error t
      | .ok ri => if li = ri then .ok true else inChkSet li m p rest

/-- The element loop of the `in` *evaluator*: union of the possible
positions of all set members (`can`). -/
def inCanFold (m : Matrix) (p : IdP) (count : Nat) :
    List Expr → List Bool → Except Thrown (List Bool)
  | [], can => .ok can
  | s :: rest, can =>
    match p s with
    | .error t => .error t
    | .ok rkey =>
      let can := (List.range count).foldl
        (fun can i => if m.getCell rkey i then can.set i true else can) can
      inCanFold m p count rest can

/-- Inner item loop of the `NumericIdentifier` arithmetic case, at one
position `i`: `none` signals the source's early `return null` on a value
mismatch, `some val` the updated running value. -/
def numIdInner (cat : String) (m : Matrix) (i : Nat) :
    List String → Option NumV → Option (Option NumV)
  | [], val => some val
  | item :: rest, val =>
    if !(m.getCell (cat ++ "." ++ item) i) then numIdInner cat m i rest val
    else
      let v := parseIntJS item
      match val with
      | none => numIdInner cat m i rest (some v)
      | some v0 => if jsNe v0 v then none else numIdInner cat m i rest (some v0)

/-- Outer position loop of the `NumericIdentifier` arithmetic case: scan the
identifier's surviving positions; the result is `null` (`none`) on a
mismatch or when no pairing survives. -/
def numIdScan (cat : String) (m : Matrix) (items : List String) :
    List (Nat × Bool) → Option NumV → Option NumV
  | [], val => val
  | (i, c) :: rest, val =>
    if !c then numIdScan cat m items rest val
    else
      match numIdInner cat m i items val with
      | none => none
      | some val' => numIdScan cat m items rest val'

end Zebra

namespace Zebra

/-! ## The mutual evaluator (`parseClue`, `checkClueThrowable`,
`parseArithmetic` and their list loops)

All functions return the updated expression alongside their result,
modelling the source's in-place mutation of the AST memo fields; the
propagator additionally threads the matrix.  A `some t` / `.error t` result
is a JS exception propagating out of the function, with the expression and
matrix in their state at the throw point. -/

mutual

/-- `parseClue(clue, matrix, p, sc)` (`clueEval.ts`): dispatch on
`(type, operator)` through `clueEvaluators`; unknown combinations and
already-`solved` clues are no-ops.  (No evaluator returns a matrix, so the
source's dead `Object.assign` branch never fires.) -/
def parseClue (clue : Expr) (m : Matrix) (p : IdP) (sc : SolverConfig) :
    Option Thrown × Expr × Matrix :=
  if clue.solved.isSome then (none, clue, m)
  else
    match clue with
    | .mk (.positional op a b dist) sv st d ps =>
      let node := Expr.mk (.positional op a b dist) sv st d ps
      if op = "=" || op = "-" then
        let distance := if op = "=" then 0 else dist.getD 1
        match p a with
        | .error t => (some t, node, m)
        | .ok l =>
          match p b with
          | .error t => (some t, node, m)
          | .ok r => (none, node, positionalDistanceEval m sc l r distance)
      else if op = "--" then
        match p a with
        | .error t => (some t, node, m)
        | .ok l =>
          match p b with
          | .error t => (some t, node, m)
          | .ok r =>
            let m := sweepClear r l (List.range sc.count) m
            let m := sweepClear l r (List.range sc.count).reverse m
            (none, node, m)
      else (none, node, m)
    | .mk (.logicalBinary op a b) sv st d ps =>
      if op = "&" then
        match parseClue a m p sc with
        | (some t, a', m') => (some t, .mk (.logicalBinary op a' b) sv st d ps, m')
        | (none, a', m') =>
          match parseClue b m' p sc with
          | (e, b', m'') => (e, .mk (.logicalBinary op a' b') sv st d ps, m'')
      else if op = "|" then
        -- evalBinaryLogical: propagate each side into a clone, eliminate,
        -- then keep a cell iff some side keeps it
        match parseClue a m p sc with
        | (some t, a', _) => (some t, .mk (.logicalBinary op a' b) sv st d ps, m)
        | (none, a', m1) =>
          match parseClue b m p sc with
          | (some t, b', _) => (some t, .mk (.logicalBinary op a' b') sv st d ps, m)
          | (none, b', m2) =>
            let m1 := eliminateImpossibleOptions m1 sc
            let m2 := eliminateImpossibleOptions m2 sc
            let keys := m.map (·.1)
            let m' := keys.foldl (fun m key =>
              (List.range sc.count).foldl (fun m i =>
                if !(m1.getCell key i || m2.getCell key i) then
                  m.setCell key (i : ℤ) false
                else m) m) m
            (none, .mk (.logicalBinary op a' b') sv st d ps, m')
      else (none, clue, m)
    | .mk (.logicalOperation op operands) sv st d ps =>
      if op = "&" then
        match parseClueListAnd operands m p sc with
        | (e, ops', m') => (e, .mk (.logicalOperation op ops') sv st d ps, m')
      else if op = "|" then
        match parseClueSnapshots operands m p sc with
        | (some t, ops', _) => (some t, .mk (.logicalOperation op ops') sv st d ps, m)
        | (none, ops', snapshots) =>
          let keys := m.map (·.1)
          let m' := keys.foldl (fun m key =>
            (List.range sc.count).foldl (fun m i =>
              if snapshots.all (fun s => !s.getCell key i) then
                m.setCell key (i : ℤ) false
              else m) m) m
          (none, .mk (.logicalOperation op ops') sv st d ps, m')
      else (none, clue, m)
    | .mk (.inOperator a b) sv st d ps =>
      let node := Expr.mk (.inOperator a b) sv st d ps
      match a.core with
      | .identifier _ =>
        match b.core with
        | .setLiteral elems =>
          match p a with
          | .error t => (some t, node, m)
          | .ok l =>
            match inCanFold m p sc.count elems (List.replicate sc.count false) with
            | .error t => (some t, node, m)
            | .ok can =>
              let m' := (List.range sc.count).foldl (fun m i =>
                m.setCell l (i : ℤ) (m.getCell l i && can.getD i false)) m
              (none, node, m')
        | _ =>
          (some (.solverError "Identifier can be only in a SetLiteral."
            node.pos), node, m)
      | _ => (none, node, m)
    | .mk (.relational op a b) sv st d ps =>
      match relationalOk op with
      | none => (none, clue, m)
      | some ok =>
        match a.core with
        | .numericIdentifier _ cat =>
          match parseArithmetic b m p sc with
          | (.error t, b') => (some t, .mk (.relational op a b') sv st d ps, m)
          | (.ok r?, b') =>
            let node := Expr.mk (.relational op a b') sv st d ps
            match r? with
            | none => (none, node, m)
            | some rv =>
              match p a with
              | .error t => (some t, node, m)
              | .ok lkey =>
                let idRow := m.getRow lkey
                if idRow.countP (fun x => x) ≠ 1 then (none, node, m)
                else
                  let colPos := idRow.findIdx (fun x => x)
                  match sc.category? cat with
                  | none =>
                    (some (.solverError ("Category " ++ cat ++ " does not exist.")
                      node.pos), node, m)
                  | some items =>
                    let m' := items.foldl (fun m item =>
                      if !(ok (parseIntJS item) rv) then
                        m.setCell (cat ++ "." ++ item) (colPos : ℤ) false
                      else m) m
                    (none, node, m')
        | _ =>
          match b.core with
          | .numericIdentifier _ cat =>
            match parseArithmetic a m p sc with
            | (.error t, a') => (some t, .mk (.relational op a' b) sv st d ps, m)
            | (.ok l?, a') =>
              let node := Expr.mk (.relational op a' b) sv st d ps
              match l? with
              | none => (none, node, m)
              | some lv =>
                match p b with
                | .error t => (some t, node, m)
                | .ok rkey =>
                  let idRow := m.getRow rkey
                  if idRow.countP (fun x => x) ≠ 1 then (none, node, m)
                  else
                    let colPos := idRow.findIdx (fun x => x)
                    match sc.category? cat with
                    | none =>
                      (some (.solverError ("Category " ++ cat ++ " does not exist.")
                        node.pos), node, m)
                    | some items =>
                      let m' := items.foldl (fun m item =>
                        if !(ok lv (parseIntJS item)) then
                          m.setCell (cat ++ "." ++ item) (colPos : ℤ) false
                        else m) m
                      (none, node, m')
          | _ => (none, clue, m)
    | _ => (none, clue, m)
termination_by (sizeOf clue, 0)

/-- The `LogicalOperation '&'` evaluator loop: propagate each conjunct in
sequence into the same matrix. -/
def parseClueListAnd (operands : List Expr) (m : Matrix) (p : IdP)
    (sc : SolverConfig) : Option Thrown × List Expr × Matrix :=
  match operands with
  | [] => (none, [], m)
  | c :: rest =>
    match parseClue c m p sc with
    | (some t, c', m') => (some t, c' :: rest, m')
    | (none, c', m') =>
      match parseClueListAnd rest m' p sc with
      | (e, rest', m'') => (e, c' :: rest', m'')
termination_by (sizeOf operands, 0)

/-- The `LogicalOperation '|'` evaluator loop: propagate each disjunct into
its own clone of the matrix and run full elimination on it. -/
def parseClueSnapshots (operands : List Expr) (m : Matrix) (p : IdP)
    (sc : SolverConfig) : Option Thrown × List Expr × List Matrix :=
  match operands with
  | [] => (none, [], [])
  | c :: rest =>
    match parseClue c m p sc with
    | (some t, c', _) => (some t, c' :: rest, [])
    | (none, c', mc) =>
      let mc := eliminateImpossibleOptions mc sc
      match parseClueSnapshots rest m p sc with
      | (e, rest', snaps) => (e, c' :: rest', mc :: snaps)
termination_by (sizeOf operands, 0)

/-- `checkClueThrowable(clue, matrix, p, sc)`: the checker dispatch without
the catch-all; sentinel and solver errors propagate to the caller, and memo
fields are updated in the returned expression. -/
def checkClueThrowable (clue : Expr) (m : Matrix) (p : IdP) (sc : SolverConfig) :
    Except Thrown Bool × Expr :=
  match clue.solved with
  | some b => (.ok b, clue)
  | none =>
    match clue with
    | .mk (.positional op a b dist) sv st d ps =>
      let node := Expr.mk (.positional op a b dist) sv st d ps
      if op = "=" || op = "-" || op = "--" then
        match p a with
        | .error t => (.error t, node)
        | .ok lkey =>
          match getTrueIndex (m.getRow lkey) with
          | .error t => (.error t, node)
          | .ok li =>
            match p b with
            | .error t => (.error t, node)
            | .ok rkey =>
              match getTrueIndex (m.getRow rkey) with
              | .error t => (.error t, node)
              | .ok ri =>
                let out :=
                  if op = "=" then li = ri
                  else if op = "-" then (ri : ℤ) - li = (dist.getD 1 : ℤ)
                  else li < ri
                (.ok out, .mk (.positional op a b dist) (some out) st d ps)
      else (.ok true, node)
    | .mk (.logicalBinary op a b) sv st d ps =>
      match logicalBinaryCombine op with
      | none => (.ok true, clue)
      | some comb =>
        match checkClueThrowable a m p sc with
        | (.error t, a') => (.error t, .mk (.logicalBinary op a' b) sv st d ps)
        | (.ok x, a') =>
          match checkClueThrowable b m p sc with
          | (.error t, b') => (.error t, .mk (.logicalBinary op a' b') sv st d ps)
          | (.ok y, b') =>
            let out := comb x y
            let sv' := if a'.solved.isSome && b'.solved.isSome then some out else sv
            (.ok out, .mk (.logicalBinary op a' b') sv' st d ps)
    | .mk (.logicalOperation op operands) sv st d ps =>
      if op = "&" || op = "|" then
        match checkCTList operands m p sc with
        | (.error t, ops') => (.error t, .mk (.logicalOperation op ops') sv st d ps)
        | (.ok results, ops') =>
          let out := if op = "&" then results.all (fun x => x) else results.any (fun x => x)
          let sv' := if ops'.all (fun c => c.solved.isSome) then some out else sv
          (.ok out, .mk (.logicalOperation op ops') sv' st d ps)
      else (.ok true, clue)
    | .mk (.logicalUnary op a) sv st d ps =>
      if op = "!" then
        match checkClueThrowable a m p sc with
        | (.error t, a') => (.error t, .mk (.logicalUnary op a') sv st d ps)
        | (.ok x, a') =>
          let out := !x
          let sv' := if a'.solved.isSome then some out else sv
          (.ok out, .mk (.logicalUnary op a') sv' st d ps)
      else (.ok true, clue)
    | .mk (.inOperator a b) sv st d ps =>
      let node := Expr.mk (.inOperator a b) sv st d ps
      match a.core with
      | .identifier _ =>
        match b.core with
        | .setLiteral elems =>
          match p a with
          | .error t => (.error t, node)
          | .ok lkey =>
            match getTrueIndex (m.getRow lkey) with
            | .error t => (.error t, node)
            | .ok li =>
              match inChkSet li m p elems with
              | .error t => (.error t, node)
              | .ok r => (.ok r, node)
        | _ =>
          (.error (.solverError "Identifier can be only in a SetLiteral."
            node.pos), node)
      | _ =>
        if a.returnsArith then checkInArith a b sv st d ps m p sc
        else
          -- parser-unreachable fall-through: the source returns `undefined`
          -- here (treated as false by `solveOption`); modelled as `false`
          (.ok false, node)
    | .mk (.relational op a b) sv st d ps =>
      match relationalOk op with
      | none => (.ok true, clue)
      | some ok =>
        -- checkRelational: memoise both sides in `states`, conservative
        -- `true` when either side is still undetermined
        match st.1 with
        | some lv => checkRelationalRight op ok lv a b sv (some lv, st.2) d ps m p sc
        | none =>
          match parseArithmetic a m p sc with
          | (.error t, a') => (.error t, .mk (.relational op a' b) sv st d ps)
          | (.ok lres, a') =>
            match lres with
            | none =>
              -- states.l stays null; still evaluate states.r? No: the
              -- source computes `token.states.l` then `token.states.r`
              -- unconditionally, then tests both for null.
              match parseArithmetic b m p sc with
              | (.error t, b') => (.error t, .mk (.relational op a' b') sv (none, st.2) d ps)
              | (.ok rres, b') =>
                let st' : Option NumV × Option NumV := (none, st.2.orElse (fun _ => rres))
                (.ok true, .mk (.relational op a' b') sv st' d ps)
            | some lv => checkRelationalRight op ok lv a' b sv (some lv, st.2) d ps m p sc
    | _ => (.ok true, clue)
termination_by (sizeOf clue, 2)

/-- Second half of `checkRelational`: `states.l` is already a number `lv`;
memoise `states.r`, return conservative `true` when it is null, otherwise
compare and set `solved`.  (`op` is reconstructed from the comparator's
caller, which passes the node fields through.) -/
def checkRelationalRight (op : String) (ok : NumV → NumV → Bool) (lv : NumV) (a b : Expr)
    (sv : Option Bool) (st : Option NumV × Option NumV) (d : Bool) (ps : Nat × Nat)
    (m : Matrix) (p : IdP) (sc : SolverConfig) : Except Thrown Bool × Expr :=
  match st.2 with
  | some rv =>
    let out := ok lv rv
    (.ok out, .mk (.relational op a b) (some out) st d ps)
  | none =>
    match parseArithmetic b m p sc with
    | (.error t, b') => (.error t, .mk (.relational op a b') sv st d ps)
    | (.ok rres, b') =>
      match rres with
      | none => (.ok true, .mk (.relational op a b') sv (st.1, none) d ps)
      | some rv =>
        let out := ok lv rv
        (.ok out, .mk (.relational op a b') (some out) (st.1, some rv) d ps)
termination_by (sizeOf b, 1)

/-- The arithmetic cases of the `in` checker (`token.operands[0]` returns
`'arithmetic'`): evaluate the left value, then test membership in the set
or range, conservatively `true` on any undetermined part. -/
def checkInArith (a b : Expr) (sv : Option Bool) (st : Option NumV × Option NumV)
    (d : Bool) (ps : Nat × Nat) (m : Matrix) (p : IdP) (sc : SolverConfig) :
    Except Thrown Bool × Expr :=
  match parseArithmetic a m p sc with
  | (.error t, a') => (.error t, .mk (.inOperator a' b) sv st d ps)
  | (.ok v?, a') =>
    match v? with
    | none => (.ok true, .mk (.inOperator a' b) sv st d ps)
    | some val =>
      match b with
      | .mk (.setLiteral elems) bsv bst bd bps =>
        match inArithSet val elems m p sc ps with
        | (r, elems') =>
          (r, .mk (.inOperator a' (.mk (.setLiteral elems') bsv bst bd bps))
            sv st d ps)
      | .mk (.rangeLiteral rs re) bsv bst bd bps =>
        match parseArithmetic rs m p sc with
        | (.error t, rs') =>
          (.error t, .mk (.inOperator a' (.mk (.rangeLiteral rs' re) bsv bst bd bps))
            sv st d ps)
        | (.ok sv?, rs') =>
          match parseArithmetic re m p sc with
          | (.error t, re') =>
            (.error t,
              .mk (.inOperator a' (.mk (.rangeLiteral rs' re') bsv bst bd bps))
              sv st d ps)
          | (.ok ev?, re') =>
            let node' := Expr.mk
              (.inOperator a' (.mk (.rangeLiteral rs' re') bsv bst bd bps))
              sv st d ps
            match sv?, ev? with
            | some sval, some eval2 =>
              (.ok (jsGe val sval && jsLe val eval2), node')
            | _, _ => (.ok true, node')
      | _ =>
        -- neither set nor range: the source reads `.start` of the operand
        -- and crashes in `parseArithmetic(undefined)`
        (.error (.typeError "range operand is neither set nor range"),
          .mk (.inOperator a' b) sv st d ps)
termination_by (sizeOf a + sizeOf b + 1, 0)

/-- The `LogicalOperation` checker loop: check every operand (no
short-circuit), collecting the boolean results and the updated operands. -/
def checkCTList (operands : List Expr) (m : Matrix) (p : IdP) (sc : SolverConfig) :
    Except Thrown (List Bool) × List Expr :=
  match operands with
  | [] => (.ok [], [])
  | c :: rest =>
    match checkClueThrowable c m p sc with
    | (.error t, c') => (.error t, c' :: rest)
    | (.ok x, c') =>
      match checkCTList rest m p sc with
      | (.error t, rest') => (.error t, c' :: rest')
      | (.ok xs, rest') => (.ok (x :: xs), c' :: rest')
termination_by (sizeOf operands, 2)

/-- The arithmetic-in-set loop of the `in` checker: reject non-arithmetic
members, return conservative `true` on the first undetermined member,
succeed on the first equal value. -/
def inArithSet (val : NumV) (elems : List Expr) (m : Matrix) (p : IdP)
    (sc : SolverConfig) (tokenPos : Nat × Nat) : Except Thrown Bool × List Expr :=
  match elems with
  | [] => (.ok false, [])
  | item :: rest =>
    if !item.returnsArith then
      (.error (.solverError "This set can only be arithmetic." tokenPos), item :: rest)
    else
      match parseArithmetic item m p sc with
      | (.error t, item') => (.error t, item' :: rest)
      | (.ok v?, item') =>
        match v? with
        | none => (.ok true, item' :: rest)
        | some v =>
          if jsEq v val then (.ok true, item' :: rest)
          else
            match inArithSet val rest m p sc tokenPos with
            | (r, rest') => (r, item' :: rest')
termination_by (sizeOf elems, 2)

/-- `parseArithmetic(exp, m, p, sc)`: `some (some v)` a number, `some none`
`NaN`, `none` the source's `null`/`undefined` ("not determined"). -/
def parseArithmetic (exp : Expr) (m : Matrix) (p : IdP) (sc : SolverConfig) :
    Except Thrown (Option NumV) × Expr :=
  match exp with
  | .mk (.numericLiteral v) _ _ _ _ => (.ok (some (some v)), exp)
  | .mk (.numericIdentifier _ cat) _ _ _ _ =>
    (match p exp with
    | .error t => (.error t, exp)
    | .ok lkey =>
      let idRow := m.getRow lkey
      match sc.category? cat with
      | none =>
        (.error (.solverError ("Category " ++ cat ++ " does not exist.") exp.pos), exp)
      | some items => (.ok (numIdScan cat m items idRow.enum none), exp))
  | .mk (.arithmeticBinary op a b) sv st d ps =>
    (match parseArithmetic a m p sc with
    | (.error t, a') => (.error t, .mk (.arithmeticBinary op a' b) sv st d ps)
    | (.ok l?, a') =>
      match parseArithmetic b m p sc with
      | (.error t, b') => (.error t, .mk (.arithmeticBinary op a' b') sv st d ps)
      | (.ok r?, b') =>
        let node := Expr.mk (.arithmeticBinary op a' b') sv st d ps
        match l?, r? with
        | some lv, some rv =>
          if op = "+" then (.ok (some (jsAdd lv rv)), node)
          else if op = "-" then (.ok (some (jsSub lv rv)), node)
          else if op = "*" then (.ok (some (jsMul lv rv)), node)
          else if op = "/" then (.ok (some (jsDiv lv rv)), node)
          else if op = "%" then (.ok (some (jsMod lv rv)), node)
          else if op = "diff" then (.ok (some (jsDiffAbs lv rv)), node)
          else
            (.error (.solverError ("Unexpected arithmetic operator " ++ op ++ ".")
              ps), node)
        | _, _ => (.ok none, node))
  | .mk (.truthsOperator s) sv st d ps =>
    (match s with
    | .mk (.setLiteral elems) ssv sst sd sps =>
      match truthsFold elems m p sc 0 with
      | (.error t, elems') =>
        (.error t, .mk (.truthsOperator (.mk (.setLiteral elems') ssv sst sd sps)) sv st d ps)
      | (.ok n, elems') =>
        (.ok (some (some (n : ℚ))),
          .mk (.truthsOperator (.mk (.setLiteral elems') ssv sst sd sps)) sv st d ps)
    | _ => (.error (.typeError "truths operand has no elements"), exp))
  | _ =>
    -- every other node type falls through the if/else chain of the source
    -- and yields `undefined`, which every caller tests with `== null`
    (.ok none, exp)
termination_by (sizeOf exp, 0)

/-- The `TruthsOperator` loop: count the set elements whose throwable check
returns `true` (a throw aborts the whole count). -/
def truthsFold (elems : List Expr) (m : Matrix) (p : IdP) (sc : SolverConfig)
    (acc : Nat) : Except Thrown Nat × List Expr :=
  match elems with
  | [] => (.ok acc, [])
  | c :: rest =>
    match checkClueThrowable c m p sc with
    | (.error t, c') => (.error t, c' :: rest)
    | (.ok x, c') =>
      match truthsFold rest m p sc (if x then acc + 1 else acc) with
      | (r, rest') => (r, c' :: rest')
termination_by (sizeOf elems, 2)

end

end Zebra

namespace Zebra

/-! ## The catching checker (`checkClue`) and the solver loop (`solver.ts`) -/

/-- `checkClue(clue, matrix, p, sc)`: the catch-all converts *every*
exception — the two sentinels as well as `SolverError`s — into `true`. -/
def checkClue (clue : Expr) (m : Matrix) (p : IdP) (sc : SolverConfig) : Bool :=
  match clue.solved with
  | some b => b
  | none =>
    match (checkClueThrowable clue m p sc).1 with
    | .ok b => b
    | .error _ => true

/-- `checkClue` with the caller-visible post-state made explicit: the body
runs the checker on `structuredClone(clue)`, so the memo mutations land in
the clone and are discarded with it, and no checker writes to the matrix.
The triple is (returned boolean, the caller's clue after the call, the
caller's matrix after the call). -/
def checkClueFull (clue : Expr) (m : Matrix) (p : IdP) (sc : SolverConfig) :
    Bool × Expr × Matrix :=
  match clue.solved with
  | some b => (b, clue, m)
  | none =>
    let clueClone := clue
    match checkClueThrowable clueClone m p sc with
    | (.ok b, _) => (b, clue, m)
    | (.error _, _) => (true, clue, m)

/-- One branch state: its own matrix and its own (mutable) clue list. -/
structure IterationState where
  matrix : Matrix
  clues : List Expr

/-- The inner `d`-loop of `iteration`: propagate a clue under each dynamic
binding `d ∈ [1, count]`, stopping after the first pass for `$`-free clues. -/
def parseClueDollar (sc : SolverConfig) : List Nat → Expr → Matrix →
    Option Thrown × Expr × Matrix
  | [], clue, m => (none, clue, m)
  | d :: rest, clue, m =>
    match parseClue clue m (parseIdentifier sc d) sc with
    | (some t, clue', m') => (some t, clue', m')
    | (none, clue', m') =>
      if !clue'.dollar then (none, clue', m')
      else parseClueDollar sc rest clue' m'

/-- The clue loop of `iteration`. -/
def parseCluesAll (sc : SolverConfig) : List Expr → Matrix →
    Option Thrown × List Expr × Matrix
  | [], m => (none, [], m)
  | clue :: rest, m =>
    match parseClueDollar sc (List.range' 1 sc.count) clue m with
    | (some t, clue', m') => (some t, clue' :: rest, m')
    | (none, clue', m') =>
      match parseCluesAll sc rest m' with
      | (e, rest', m'') => (e, clue' :: rest', m'')

/-- `iteration(state)`: one propagation sweep over every clue followed by
the subset elimination engine. -/
def iteration (sc : SolverConfig) (st : IterationState) :
    Option Thrown × IterationState :=
  match parseCluesAll sc st.clues st.matrix with
  | (some t, clues', m') => (some t, ⟨m', clues'⟩)
  | (none, clues', m') => (none, ⟨eliminateImpossibleOptions m' sc, clues'⟩)

/-- The convergence test of `solveOption`: compare the first `count` cells
of every row of the current matrix against the snapshot. -/
def iterEqUpTo (count : Nat) (m' m0 : Matrix) : Bool :=
  m'.all (fun kv => (List.range count).all
    (fun i => kv.2.getD i false == m0.getCell kv.1 i))

/-- The `while (true)` fixed-point loop of `solveOption`, fuelled; the fuel
`countTrue + 1` supplied by `solveOption` is always sufficient because each
non-final pass strictly decreases `countTrue` (see the monotonicity lemmas
below), so the `0` case is never reached from `solveOption`. -/
def solveLoop (sc : SolverConfig) : Nat → IterationState →
    Option Thrown × IterationState
  | 0, st => (none, st)
  | fuel + 1, st =>
    let snapshot := st.matrix
    match iteration sc st with
    | (some t, st') => (some t, st')
    | (none, st') =>
      if iterEqUpTo sc.count st'.matrix snapshot then (none, st')
      else solveLoop sc fuel st'

/-- The per-item loop of the validation scan of `solveOption`, threading
`colHas` and the running `allSolved` flag; `none` is the early `return -1`
for an empty strict row. -/
def catScanItems (m : Matrix) (cat : String) (great : Bool) :
    List String → List Bool → Bool → Option (List Bool × Bool)
  | [], colHas, ok => some (colHas, ok)
  | item :: rest, colHas, ok =>
    let row := m.getRow (cat ++ "." ++ item)
    let tis := (row.enum.filter (fun pr => pr.2)).map (·.1)
    let ok := ok && decide (tis.length ≤ 1)
    if tis.length = 0 && !great then none
    else
      let acc := tis.foldl
        (fun (acc : List Bool × Bool) ti =>
          (acc.1.set ti true, acc.2 && !(acc.1.getD ti false)))
        (colHas, ok)
      catScanItems m cat great rest acc.1 acc.2

/-- The category loop of the validation scan: `none` is `return -1` (an
empty strict row or an uncovered column), `some b` the final `allSolved`. -/
def validateCategories (m : Matrix) (count : Nat) (great : List String) :
    List (String × List String) → Bool → Option Bool
  | [], allSolved => some allSolved
  | (cat, items) :: rest, allSolved =>
    match catScanItems m cat (great.contains cat) items
        (List.replicate count false) allSolved with
    | none => none
    | some (colHas, allSolved') =>
      if colHas.contains false then none
      else validateCategories m count great rest allSolved'

/-- The inner `d`-loop of the clue verification of `solveOption`
(`for (let d = 1; d <= count; d++)`): check the clue under each binding `d`
in turn, aborting on a failed check and stopping after the first `d` for a
`$`-free clue; an empty list (when `count = 0`) checks nothing. -/
def checkClueDLoop (sc : SolverConfig) (m : Matrix) (clue : Expr) : List Nat → Bool
  | [] => true
  | d :: rest =>
    if !(checkClue clue m (parseIdentifier sc d) sc) then false
    else if !clue.dollar then true
    else checkClueDLoop sc m clue rest

/-- The clue-verification loop of `solveOption`: every clue must pass its
`d`-loop over `d ∈ [1, count]`, a failure being the early `return -2`. -/
def checkCluesAll (sc : SolverConfig) (m : Matrix) : List Expr → Bool
  | [] => true
  | clue :: rest =>
    if checkClueDLoop sc m clue (List.range' 1 sc.count) then checkCluesAll sc m rest
    else false

/-- The post-loop validation of `solveOption`: `-1` invalid shape, `-2` a
clue checks false, `1` fully solved (the matrix is recorded), `0` quiescent
but under-determined. -/
def validateOption (sc : SolverConfig) (st : IterationState) : Int :=
  match validateCategories st.matrix sc.count sc.greatCategories sc.categories true with
  | none => -1
  | some allSolved =>
    if !checkCluesAll sc st.matrix st.clues then -2
    else if allSolved then 1 else 0

/-- `solveOption(state)`: iterate to quiescence, then validate. -/
def solveOption (sc : SolverConfig) (st : IterationState) :
    Option Thrown × Int × IterationState :=
  match solveLoop sc (st.matrix.countTrue + 1) st with
  | (some t, st') => (some t, 0, st')
  | (none, st') => (none, validateOption sc st', st')

/-- The branching step of `runIterations`: find the (category, column) with
the fewest (≥ 2) remaining candidates — first minimum in category insertion
order, then column order — and fork one child per remaining candidate.  When
no cell qualifies the source crashes on `categories['']`; the model produces
no children (the branch is dropped either way, the run having died). -/
def expandState (sc : SolverConfig) (st : IterationState) : List IterationState :=
  let scan := sc.categories.foldl (fun acc kv =>
    (List.range sc.count).foldl (fun acc col =>
      let cnt := kv.2.countP (fun item => st.matrix.getCell (kv.1 ++ "." ++ item) col)
      match acc with
      | none => if cnt > 1 then some (cnt, kv.1, col) else none
      | some (mo, mc, mcol) =>
        if cnt > 1 && cnt < mo then some (cnt, kv.1, col) else some (mo, mc, mcol))
      acc) (none : Option (Nat × String × Nat))
  match scan with
  | none => []
  | some (_, cat, col) =>
    let items := (sc.category? cat).getD []
    items.filterMap (fun item =>
      if st.matrix.getCell (cat ++ "." ++ item) col then
        some ⟨((items.foldl (fun m it => m.setCell (cat ++ "." ++ it) (col : ℤ) false)
            st.matrix).setCell (cat ++ "." ++ item) (col : ℤ) true),
          st.clues⟩
      else none)

/-- One wave of `runIterations`: run `solveOption` on every state of the
stack, record solved matrices, expand quiescent states; an exception aborts
the whole run. -/
def wave (sc : SolverConfig) : List IterationState →
    Option Thrown × List IterationState × List Matrix
  | [] => (none, [], [])
  | st :: rest =>
    match solveOption sc st with
    | (some t, _, _) => (some t, [], [])
    | (none, code, st') =>
      let children := if code = 0 then expandState sc st' else []
      let sols : List Matrix := if code = 1 then [st'.matrix] else []
      match wave sc rest with
      | (e, childrenRest, solsRest) => (e, children ++ childrenRest, sols ++ solsRest)

/-- `runIterations`: consume up to `maximumIterations` waves; returns
(`done`, remaining stack, solutions found). -/
def runIterations (sc : SolverConfig) : Nat → List IterationState →
    Except Thrown (Bool × List IterationState × List Matrix)
  | 0, stack => .ok (stack.isEmpty, stack, [])
  | k + 1, stack =>
    if stack.isEmpty then .ok (true, [], [])
    else
      match wave sc stack with
      | (some t, _, _) => .error t
      | (none, next, sols) =>
        match runIterations sc k next with
        | .error t => .error t
        | .ok (d2, s2, sols2) => .ok (d2, s2, sols ++ sols2)

end Zebra

namespace Zebra

/-! ## Narrowing infrastructure

`Narrow m' m`: every cell still `true` in `m'` was already `true` in `m` —
the "cells only flip `true → false`" half of the monotonicity invariant. -/

def Narrow (m' m : Matrix) : Prop :=
  ∀ k i, m'.getCell k i = true → m.getCell k i = true

theorem Narrow.rfl (m : Matrix) : Narrow m m := fun _ _ h => h

theorem Narrow.trans {m1 m2 m3 : Matrix} (h12 : Narrow m1 m2) (h23 : Narrow m2 m3) :
    Narrow m1 m3 := fun k i h => h23 k i (h12 k i h)

theorem jsSetElem_getD (row : List Bool) (i : Nat) (b : Bool) (i' : Nat) :
    (jsSetElem row i b).getD i' false = if i' = i then b else row.getD i' false := by
  unfold jsSetElem
  by_cases hlt : i < row.length
  · simp only [if_pos hlt, List.getD_eq_getElem?_getD, List.getElem?_set]
    by_cases hii : i' = i
    · simp [hii, hlt]
    · rw [if_neg (fun h => hii h.symm), if_neg hii]
  · simp only [if_neg hlt, List.getD_eq_getElem?_getD]
    push_neg at hlt
    simp only [List.getElem?_append, List.getElem?_replicate, List.length_append,
      List.length_replicate]
    by_cases hii : i' = i
    · subst hii
      rw [if_neg (show ¬(i' < row.length + (i' - row.length)) by omega),
        if_pos (show i' = i' from rfl),
        show i' - (row.length + (i' - row.length)) = 0 by omega]
      rfl
    · rw [if_neg hii]
      by_cases hlt' : i' < row.length
      · rw [if_pos (show i' < row.length + (i - row.length) by omega), if_pos hlt']
      · by_cases hrep : i' < i
        · rw [if_pos (show i' < row.length + (i - row.length) by omega),
            if_neg (show ¬ i' < row.length by omega),
            if_pos (show i' - row.length < i - row.length by omega)]
          simp [List.getElem?_eq_none (show row.length ≤ i' by omega)]
        · rw [if_neg (show ¬(i' < row.length + (i - row.length)) by omega),
            show i' - (row.length + (i - row.length)) = i' - i by omega,
            List.getElem?_eq_none (show ([b] : List Bool).length ≤ i' - i by simp; omega),
            List.getElem?_eq_none (show row.length ≤ i' by omega)]

theorem jsSetElem_length (row : List Bool) (i : Nat) (b : Bool) (h : i < row.length) :
    (jsSetElem row i b).length = row.length := by
  simp [jsSetElem, if_pos h]

theorem getRow_cons (a : String × List Bool) (rest : Matrix) (k : String) :
    Matrix.getRow (a :: rest) k = if a.1 = k then a.2 else rest.getRow k := by
  unfold Matrix.getRow
  by_cases h : a.1 = k <;> simp [List.find?, h]

end Zebra

namespace Zebra

theorem getCell_setCell (m : Matrix) (k : String) (i : ℤ) (b : Bool) (k' : String) (i' : Nat) :
    (m.setCell k i b).getCell k' i' =
      if k' = k ∧ 0 ≤ i ∧ i' = i.toNat ∧ (m.find? (fun kv => kv.1 = k)).isSome then b
      else m.getCell k' i' := by
  unfold Matrix.setCell
  by_cases h0 : 0 ≤ i
  · simp only [if_pos h0]
    induction m with
    | nil => simp [Matrix.getCell, Matrix.getRow]
    | cons a rest ih =>
      simp only [List.map_cons]
      by_cases hak : a.1 = k
      · rw [if_pos hak]
        by_cases hk : a.1 = k'
        · have hkk : k' = k := by rw [← hk, hak]
          unfold Matrix.getCell
          rw [getRow_cons, getRow_cons, if_pos hk, if_pos hk, jsSetElem_getD]
          by_cases hii : i' = i.toNat
          · simp [hii, hkk, h0, List.find?_cons, hak]
          · simp [hii, hkk, h0, List.find?_cons, hak]
        · have hkk : ¬ (k' = k) := fun h => hk (by rw [hak, ← h])
          unfold Matrix.getCell at ih ⊢
          rw [getRow_cons, getRow_cons, if_neg (show ¬((a.1, jsSetElem a.2 i.toNat b).1 = k')
            from hk), if_neg hk]
          rw [ih]
          simp [hkk]
      · rw [if_neg hak]
        by_cases hk : a.1 = k'
        · have hkk : ¬ (k' = k) := fun h => hak (by rw [hk, h])
          unfold Matrix.getCell
          rw [getRow_cons, getRow_cons, if_pos hk, if_pos hk]
          simp [hkk]
        · unfold Matrix.getCell at ih ⊢
          rw [getRow_cons, getRow_cons, if_neg hk, if_neg hk, ih]
          rw [List.find?_cons, show (decide (a.1 = k)) = false from by simp [hak]]
  · simp only [if_neg h0]
    simp [h0]

end Zebra

namespace Zebra

theorem setCell_narrow (m : Matrix) (k : String) (i : ℤ) (b : Bool)
    (hb : b = true → m.getCell k i.toNat = true) : Narrow (m.setCell k i b) m := by
  intro k' i' h
  rw [getCell_setCell] at h
  split at h
  · next hc =>
    obtain ⟨hk, _, hi, _⟩ := hc
    subst hk; subst hi
    exact hb h
  · exact h

theorem setCell_false_narrow (m : Matrix) (k : String) (i : ℤ) :
    Narrow (m.setCell k i false) m :=
  setCell_narrow m k i false (by simp)

theorem foldl_narrow {α : Type} (l : List α) (f : Matrix → α → Matrix) (m : Matrix)
    (hf : ∀ m a, a ∈ l → Narrow (f m a) m) : Narrow (l.foldl f m) m := by
  induction l generalizing m with
  | nil => exact Narrow.rfl m
  | cons a rest ih =>
    exact Narrow.trans (ih (f m a) (fun m x hx => hf m x (List.mem_cons_of_mem a hx)))
      (hf m a (List.mem_cons_self a rest))

theorem positionalDistanceEval_narrow (m : Matrix) (sc : SolverConfig) (l r : String)
    (dist : Nat) : Narrow (positionalDistanceEval m sc l r dist) m := by
  unfold positionalDistanceEval
  apply Narrow.trans (foldl_narrow _ _ _ ?_) (foldl_narrow _ _ _ ?_)
  · intro m i _
    exact Narrow.trans (setCell_false_narrow _ r _) (setCell_false_narrow _ l _)
  · intro m i _
    split
    · exact Narrow.rfl m
    · exact Narrow.trans (setCell_false_narrow _ r _) (setCell_false_narrow _ l _)

theorem sweepClear_narrow (clearKey checkKey : String) (idxs : List Nat) (m : Matrix) :
    Narrow (sweepClear clearKey checkKey idxs m) m := by
  induction idxs generalizing m with
  | nil => exact Narrow.rfl m
  | cons i rest ih =>
    simp only [sweepClear]
    split
    · exact setCell_false_narrow _ _ _
    · exact Narrow.trans (ih _) (setCell_false_narrow _ _ _)

theorem eliminateImpossibleOptionsByCategory_narrow (m : Matrix) (category : String)
    (sc : SolverConfig) : Narrow (eliminateImpossibleOptionsByCategory m category sc) m := by
  unfold eliminateImpossibleOptionsByCategory
  apply foldl_narrow
  intro m k _
  apply foldl_narrow
  intro m comb _
  dsimp only
  split
  · exact Narrow.rfl m
  · apply foldl_narrow
    intro m i _
    split
    · exact Narrow.rfl m
    · apply foldl_narrow
      intro m j _
      split
      · exact Narrow.rfl m
      · exact setCell_false_narrow _ _ _

theorem eliminateImpossibleOptions_narrow (m : Matrix) (sc : SolverConfig) :
    Narrow (eliminateImpossibleOptions m sc) m := by
  unfold eliminateImpossibleOptions
  exact foldl_narrow _ _ _ (fun m kv _ => eliminateImpossibleOptionsByCategory_narrow m kv.1 sc)

end Zebra

namespace Zebra

/-! ## Shape preservation infrastructure -/

/-- All rows of the matrix have the solver's row length `count`. -/
def MatWF (m : Matrix) (count : Nat) : Prop :=
  ∀ kv ∈ m, (kv : String × List Bool).2.length = count

theorem MatWF_of_shape {m m' : Matrix} {count : Nat}
    (hs : m'.shape = m.shape) (h : MatWF m count) : MatWF m' count := by
  intro kv hkv
  have : (kv.1, kv.2.length) ∈ m'.shape := List.mem_map_of_mem _ hkv
  rw [hs] at this
  obtain ⟨kv0, hkv0, heq⟩ := List.mem_map.mp this
  have h2 : kv0.2.length = kv.2.length := congrArg Prod.snd heq
  rw [← h2]
  exact h kv0 hkv0

theorem MatWF.getRow_length {m : Matrix} {count : Nat} (h : MatWF m count) (k : String) :
    m.getRow k = [] ∨ (m.getRow k).length = count := by
  unfold Matrix.getRow
  match hf : m.find? (fun kv => kv.1 = k) with
  | none => rw [hf]; exact Or.inl rfl
  | some kv => rw [hf]; exact Or.inr (h kv (List.mem_of_find?_eq_some hf))

theorem shape_setCell (m : Matrix) (k : String) (i : ℤ) (b : Bool)
    (hin : ∀ kv ∈ m, (kv : String × List Bool).1 = k → 0 ≤ i → i.toNat < kv.2.length) :
    (m.setCell k i b).shape = m.shape := by
  unfold Matrix.setCell
  by_cases h0 : 0 ≤ i
  · rw [if_pos h0]
    unfold Matrix.shape
    rw [List.map_map]
    apply List.map_congr_left
    intro kv hkv
    by_cases hk : kv.1 = k
    · simp [hk, jsSetElem_length _ _ _ (hin kv hkv hk h0)]
    · simp [hk]
  · rw [if_neg h0]

theorem shape_setCell_wf {m : Matrix} {count : Nat} (hwf : MatWF m count)
    (k : String) (i : ℤ) (b : Bool) (hi : i.toNat < count) :
    (m.setCell k i b).shape = m.shape :=
  shape_setCell m k i b (fun kv hkv _ _ => (hwf kv hkv).symm ▸ hi)

theorem foldl_shape {α : Type} (l : List α) (f : Matrix → α → Matrix) (m0 : Matrix)
    (hf : ∀ m' a, a ∈ l → m'.shape = m0.shape → (f m' a).shape = m'.shape) :
    ∀ m', m'.shape = m0.shape → (l.foldl f m').shape = m0.shape := by
  induction l with
  | nil => intro m' h; exact h
  | cons a rest ih =>
    intro m' h
    exact ih (fun mm x hx hs => hf mm x (List.mem_cons_of_mem a hx) hs) (f m' a)
      ((hf m' a (List.mem_cons_self a rest) h).trans h)

end Zebra

namespace Zebra

theorem positionalDistanceEval_shape (m : Matrix) (sc : SolverConfig) (l r : String)
    (dist : Nat) (hwf : MatWF m sc.count) (hd : dist ≤ sc.count) :
    (positionalDistanceEval m sc l r dist).shape = m.shape := by
  unfold positionalDistanceEval
  dsimp only
  have hs1 : ((List.range (sc.count - dist)).foldl (fun m i =>
      if m.getCell l i && m.getCell r (i + dist) then m
      else (m.setCell l (i : ℤ) false).setCell r ((i : ℤ) + dist) false) m).shape
      = m.shape := by
    apply foldl_shape _ _ m ?_ m rfl
    intro m' i hi hs
    have hwf' := MatWF_of_shape hs hwf
    have hlt := List.mem_range.mp hi
    split
    · rfl
    · have hi1 : ((i : ℤ)).toNat < sc.count := by omega
      have hi2 : (((i : ℤ)) + (dist : ℤ)).toNat < sc.count := by omega
      have e1 : (m'.setCell l (i : ℤ) false).shape = m'.shape :=
        shape_setCell_wf hwf' l _ false hi1
      have e2 := shape_setCell_wf (MatWF_of_shape (e1.trans hs) hwf) r
        ((i : ℤ) + (dist : ℤ)) false hi2
      rw [show ((i : ℤ) + (dist : ℤ)) = ((i + dist : ℕ) : ℤ) by push_cast; ring] at e2 ⊢
      exact e2.trans e1
  apply foldl_shape _ _ m ?_ _ hs1
  intro m' i hi hs
  have hwf' := MatWF_of_shape hs hwf
  have hlt := List.mem_range.mp hi
  have hi1 : ((sc.count : ℤ) - (dist : ℤ) + (i : ℤ)).toNat < sc.count := by omega
  have hi2 : ((i : ℤ)).toNat < sc.count := by omega
  have e1 : (m'.setCell l ((sc.count : ℤ) - (dist : ℤ) + (i : ℤ)) false).shape = m'.shape :=
    shape_setCell_wf hwf' l _ false hi1
  have e2 := shape_setCell_wf (MatWF_of_shape (e1.trans hs) hwf) r (i : ℤ) false hi2
  exact e2.trans e1

theorem sweepClear_shape (clearKey checkKey : String) (idxs : List Nat) (m : Matrix)
    (count : Nat) (hwf : MatWF m count) (hidx : ∀ i ∈ idxs, i < count) :
    (sweepClear clearKey checkKey idxs m).shape = m.shape := by
  induction idxs generalizing m with
  | nil => rfl
  | cons i rest ih =>
    simp only [sweepClear]
    have hs1 : (m.setCell clearKey (i : ℤ) false).shape = m.shape :=
      shape_setCell_wf hwf clearKey _ false (by
        have := hidx i (List.mem_cons_self i rest); omega)
    split
    · exact hs1
    · exact (ih _ (MatWF_of_shape hs1 hwf)
        (fun j hj => hidx j (List.mem_cons_of_mem i hj))).trans hs1

theorem eliminateImpossibleOptionsByCategory_shape (m : Matrix) (category : String)
    (sc : SolverConfig) (hwf : MatWF m sc.count) :
    (eliminateImpossibleOptionsByCategory m category sc).shape = m.shape := by
  unfold eliminateImpossibleOptionsByCategory
  dsimp only
  apply foldl_shape _ _ m ?_ m rfl
  intro m1 k hk hs1
  have hkc := List.mem_range'.mp hk
  apply foldl_shape _ _ m1 ?_ m1 rfl
  intro m2 comb _ hs2
  dsimp only
  split
  · rfl
  · apply foldl_shape _ _ m2 ?_ m2 rfl
    intro m3 i _ hs3
    split
    · rfl
    · apply foldl_shape _ _ m3 ?_ m3 rfl
      intro m4 j hj hs4
      split
      · rfl
      · have hjk : j < k := List.mem_range.mp hj
        exact shape_setCell_wf
          (MatWF_of_shape (((hs4.trans hs3).trans hs2).trans hs1) hwf) _ _ false
          (by omega)

theorem eliminateImpossibleOptions_shape (m : Matrix) (sc : SolverConfig)
    (hwf : MatWF m sc.count) : (eliminateImpossibleOptions m sc).shape = m.shape := by
  unfold eliminateImpossibleOptions
  apply foldl_shape _ _ m ?_ m rfl
  intro m' kv _ hs
  exact eliminateImpossibleOptionsByCategory_shape m' kv.1 sc (MatWF_of_shape hs hwf)

end Zebra

namespace Zebra

/-- The masking folds of the disjunction evaluators only clear cells. -/
theorem maskFold_narrow (keys : List String) (count : Nat) (m : Matrix)
    (cond : Matrix → String → Nat → Bool) :
    Narrow (keys.foldl (fun m key =>
      (List.range count).foldl (fun m i =>
        if cond m key i then m.setCell key (i : ℤ) false else m) m) m) m := by
  apply foldl_narrow
  intro m key _
  apply foldl_narrow
  intro m i _
  split
  · exact setCell_false_narrow _ _ _
  · exact Narrow.rfl m

/-- The per-item clearing fold of `relationalEval` only clears cells. -/
theorem relItems_narrow (items : List String) (m : Matrix) (cat : String)
    (colPos : Nat) (keep : String → Bool) :
    Narrow (items.foldl (fun m item =>
      if keep item then m.setCell (cat ++ "." ++ item) (colPos : ℤ) false else m) m) m := by
  apply foldl_narrow
  intro m item _
  split
  · exact setCell_false_narrow _ _ _
  · exact Narrow.rfl m

mutual

theorem parseClue_narrow (clue : Expr) (m : Matrix) (p : IdP) (sc : SolverConfig) :
    Narrow (parseClue clue m p sc).2.2 m := by
  cases clue with
  | mk core sv st d ps =>
    by_cases hsv : sv.isSome
    · cases core <;>
        (simp only [parseClue, Expr.solved, hsv, if_true]; exact Narrow.rfl m)
    · cases core with
      | positional op a b dist =>
        simp only [parseClue, Expr.solved, hsv, if_false, Bool.false_eq_true]
        split
        · split
          · exact Narrow.rfl m
          · split
            · exact Narrow.rfl m
            · exact positionalDistanceEval_narrow m sc _ _ _
        · split
          · split
            · exact Narrow.rfl m
            · split
              · exact Narrow.rfl m
              · exact Narrow.trans (sweepClear_narrow _ _ _ _) (sweepClear_narrow _ _ _ _)
          · exact Narrow.rfl m
      | logicalBinary op a b =>
        simp only [parseClue, Expr.solved, hsv, if_false, Bool.false_eq_true]
        split
        · -- op = "&"
          rcases hpc : parseClue a m p sc with ⟨e1, a1, m1⟩
          have h1 : Narrow m1 m := by
            have h := parseClue_narrow a m p sc; rw [hpc] at h; exact h
          cases e1 with
          | some t => exact h1
          | none =>
            dsimp only
            rcases hpc2 : parseClue b m1 p sc with ⟨e2, b1, m2⟩
            have h2 : Narrow m2 m1 := by
              have h := parseClue_narrow b m1 p sc; rw [hpc2] at h; exact h
            exact Narrow.trans h2 h1
        · split
          · -- op = "|"
            rcases hpc : parseClue a m p sc with ⟨e1, a1, m1⟩
            cases e1 with
            | some t => exact Narrow.rfl m
            | none =>
              dsimp only
              rcases hpc2 : parseClue b m p sc with ⟨e2, b1, m2⟩
              cases e2 with
              | some t => exact Narrow.rfl m
              | none =>
                dsimp only
                exact maskFold_narrow _ _ _ _
          · exact Narrow.rfl m
      | logicalOperation op operands =>
        simp only [parseClue, Expr.solved, hsv, if_false, Bool.false_eq_true]
        split
        · -- op = "&"
          rcases hpc : parseClueListAnd operands m p sc with ⟨e1, ops1, m1⟩
          have h1 : Narrow m1 m := by
            have h := parseClueListAnd_narrow operands m p sc; rw [hpc] at h; exact h
          exact h1
        · split
          · -- op = "|"
            rcases hpc : parseClueSnapshots operands m p sc with ⟨e1, ops1, snaps⟩
            cases e1 with
            | some t => exact Narrow.rfl m
            | none =>
              dsimp only
              exact maskFold_narrow _ _ _ _
          · exact Narrow.rfl m
      | inOperator a b =>
        simp only [parseClue, Expr.solved, hsv, if_false, Bool.false_eq_true]
        split
        · -- a.core = identifier
          split
          · -- b.core = setLiteral
            split
            · exact Narrow.rfl m
            · split
              · exact Narrow.rfl m
              · apply foldl_narrow
                intro m' i _
                apply setCell_narrow
                intro hb
                rw [Int.toNat_natCast]
                exact (Bool.and_eq_true _ _ |>.mp hb).1
          · exact Narrow.rfl m
        · exact Narrow.rfl m
      | relational op a b =>
        simp only [parseClue, Expr.solved, hsv, if_false, Bool.false_eq_true]
        split
        · exact Narrow.rfl m
        · -- relationalOk op = some ok
          split
          · -- a.core numericIdentifier
            rcases hpa : parseArithmetic b m p sc with ⟨r1, b1⟩
            cases r1 with
            | error t => exact Narrow.rfl m
            | ok rv =>
              dsimp only
              cases rv with
              | none => exact Narrow.rfl m
              | some rvv =>
                dsimp only
                split
                · exact Narrow.rfl m
                · split
                  · exact Narrow.rfl m
                  · split
                    · exact Narrow.rfl m
                    · exact relItems_narrow _ _ _ _ _
          · split
            · -- b.core numericIdentifier
              rcases hpa : parseArithmetic a m p sc with ⟨l1, a1⟩
              cases l1 with
              | error t => exact Narrow.rfl m
              | ok lv =>
                dsimp only
                cases lv with
                | none => exact Narrow.rfl m
                | some lvv =>
                  dsimp only
                  split
                  · exact Narrow.rfl m
                  · split
                    · exact Narrow.rfl m
                    · split
                      · exact Narrow.rfl m
                      · exact relItems_narrow _ _ _ _ _
            · exact Narrow.rfl m
      | identifier s =>
        simp only [parseClue, Expr.solved, hsv, if_false]; exact Narrow.rfl m
      | numericLiteral v =>
        simp only [parseClue, Expr.solved, hsv, if_false]; exact Narrow.rfl m
      | numericIdentifier s c =>
        simp only [parseClue, Expr.solved, hsv, if_false]; exact Narrow.rfl m
      | setLiteral es =>
        simp only [parseClue, Expr.solved, hsv, if_false]; exact Narrow.rfl m
      | rangeLiteral s e =>
        simp only [parseClue, Expr.solved, hsv, if_false]; exact Narrow.rfl m
      | arithmeticBinary op a b =>
        simp only [parseClue, Expr.solved, hsv, if_false]; exact Narrow.rfl m
      | logicalUnary op a =>
        simp only [parseClue, Expr.solved, hsv, if_false]; exact Narrow.rfl m
      | truthsOperator s =>
        simp only [parseClue, Expr.solved, hsv, if_false]; exact Narrow.rfl m
termination_by (sizeOf clue, 0)

theorem parseClueListAnd_narrow (operands : List Expr) (m : Matrix) (p : IdP)
    (sc : SolverConfig) : Narrow (parseClueListAnd operands m p sc).2.2 m := by
  match operands with
  | [] => simp only [parseClueListAnd]; exact Narrow.rfl m
  | c :: rest =>
    simp only [parseClueListAnd]
    rcases hpc : parseClue c m p sc with ⟨e1, c1, m1⟩
    have h1 : Narrow m1 m := by
      have h := parseClue_narrow c m p sc; rw [hpc] at h; exact h
    cases e1 with
    | some t => exact h1
    | none =>
      dsimp only
      rcases hr : parseClueListAnd rest m1 p sc with ⟨e2, rest1, m2⟩
      have h2 : Narrow m2 m1 := by
        have h := parseClueListAnd_narrow rest m1 p sc; rw [hr] at h; exact h
      exact Narrow.trans h2 h1
termination_by (sizeOf operands, 0)

end

end Zebra

namespace Zebra

/-! ## The distance bound under which positional propagation stays in range

A `-` clue with `distance > N` makes `positionalDistanceEval` write past the
end of the right row (extending it, as a JS array assignment does);
`distOkE` bounds every positional distance inside the clue by `count`. -/

mutual
def distOkCore (count : Nat) : Core → Bool
  | .identifier _ => true
  | .numericLiteral _ => true
  | .numericIdentifier _ _ => true
  | .setLiteral es => distOkList count es
  | .rangeLiteral s e => distOkE count s && distOkE count e
  | .arithmeticBinary _ a b => distOkE count a && distOkE count b
  | .logicalUnary _ a => distOkE count a
  | .logicalBinary _ a b => distOkE count a && distOkE count b
  | .logicalOperation _ ops => distOkList count ops
  | .positional op a b dist =>
    (!(op = "-") || decide ((dist.getD 1) ≤ count)) && distOkE count a && distOkE count b
  | .relational _ a b => distOkE count a && distOkE count b
  | .inOperator a b => distOkE count a && distOkE count b
  | .truthsOperator s => distOkE count s

def distOkE (count : Nat) : Expr → Bool
  | .mk c _ _ _ _ => distOkCore count c

def distOkList (count : Nat) : List Expr → Bool
  | [] => true
  | e :: rest => distOkE count e && distOkList count rest
end

/-- The masking folds of the disjunction evaluators write only at columns
below `count`, so they preserve the matrix dimensions. -/
theorem maskFold_shape (keys : List String) (count : Nat) (m : Matrix)
    (cond : Matrix → String → Nat → Bool) (hwf : MatWF m count) :
    (keys.foldl (fun m key =>
      (List.range count).foldl (fun m i =>
        if cond m key i then m.setCell key (i : ℤ) false else m) m) m).shape = m.shape := by
  apply foldl_shape _ _ m ?_ m rfl
  intro m1 key _ hs1
  apply foldl_shape _ _ m1 ?_ m1 rfl
  intro m2 i hi hs2
  split
  · exact shape_setCell_wf (MatWF_of_shape (hs2.trans hs1) hwf) _ _ false
      (by simpa using List.mem_range.mp hi)
  · rfl

theorem relItems_shape (items : List String) (m : Matrix) (cat : String)
    (colPos : Nat) (keep : String → Bool) (count : Nat) (hwf : MatWF m count)
    (hcol : colPos < count) :
    (items.foldl (fun m item =>
      if keep item then m.setCell (cat ++ "." ++ item) (colPos : ℤ) false else m) m).shape
      = m.shape := by
  apply foldl_shape _ _ m ?_ m rfl
  intro m1 item _ hs1
  split
  · exact shape_setCell_wf (MatWF_of_shape hs1 hwf) _ _ false (by simpa using hcol)
  · rfl

theorem inFold_shape (l : String) (count : Nat) (m : Matrix) (can : List Bool)
    (hwf : MatWF m count) :
    ((List.range count).foldl (fun m i =>
      m.setCell l (i : ℤ) (m.getCell l i && can.getD i false)) m).shape = m.shape := by
  apply foldl_shape _ _ m ?_ m rfl
  intro m1 i hi hs1
  exact shape_setCell_wf (MatWF_of_shape hs1 hwf) _ _ _
    (by simpa using List.mem_range.mp hi)

/-- `countP = 1` puts `findIdx` in range. -/
theorem findIdx_lt_of_countP_one (row : List Bool)
    (h : row.countP (fun x => x) = 1) : row.findIdx (fun x => x) < row.length := by
  apply List.findIdx_lt_length_of_exists
  have : 0 < row.countP (fun x => x) := by omega
  obtain ⟨x, hx, hpx⟩ := List.countP_pos_iff.mp this
  exact ⟨x, hx, hpx⟩

mutual

theorem parseClue_shape (clue : Expr) (m : Matrix) (p : IdP) (sc : SolverConfig)
    (hwf : MatWF m sc.count) (hd : distOkE sc.count clue = true) :
    (parseClue clue m p sc).2.2.shape = m.shape := by
  cases clue with
  | mk core sv st d ps =>
    simp only [distOkE] at hd
    by_cases hsv : sv.isSome
    · cases core <;> (simp only [parseClue, Expr.solved, hsv, if_true])
    · cases core with
      | positional op a b dist =>
        simp only [parseClue, Expr.solved, hsv, if_false, Bool.false_eq_true]
        split
        · next hop =>
          split
          · rfl
          · split
            · rfl
            · apply positionalDistanceEval_shape _ _ _ _ _ hwf
              split
              · exact Nat.zero_le _
              · next hne =>
                have hop' : op = "-" := by
                  rcases Bool.or_eq_true _ _ |>.mp hop with h | h
                  · exact absurd (by simpa using h) hne
                  · simpa using h
                simp only [distOkCore, hop', Bool.and_eq_true, Bool.or_eq_true] at hd
                rcases hd.1.1 with h | h
                · simp at h
                · simpa using h
        · split
          · split
            · rfl
            · rename_i l hleq
              split
              · rfl
              · rename_i r hreq
                have h1 := sweepClear_shape r l (List.range sc.count) m sc.count hwf
                  (fun i hi => List.mem_range.mp hi)
                have h2 := sweepClear_shape l r (List.range sc.count).reverse _ sc.count
                  (MatWF_of_shape h1 hwf)
                  (fun i hi => List.mem_range.mp (List.mem_reverse.mp hi))
                exact h2.trans h1
          · rfl
      | logicalBinary op a b =>
        simp only [distOkCore, Bool.and_eq_true] at hd
        simp only [parseClue, Expr.solved, hsv, if_false, Bool.false_eq_true]
        split
        · rcases hpc : parseClue a m p sc with ⟨e1, a1, m1⟩
          have h1 : m1.shape = m.shape := by
            have h := parseClue_shape a m p sc hwf hd.1; rw [hpc] at h; exact h
          cases e1 with
          | some t => exact h1
          | none =>
            dsimp only
            have h2 := parseClue_shape b m1 p sc (MatWF_of_shape h1 hwf) hd.2
            exact h2.trans h1
        · split
          · rcases hpc : parseClue a m p sc with ⟨e1, a1, m1⟩
            cases e1 with
            | some t => rfl
            | none =>
              dsimp only
              rcases hpc2 : parseClue b m p sc with ⟨e2, b1, m2⟩
              cases e2 with
              | some t => rfl
              | none =>
                dsimp only
                exact maskFold_shape _ _ _ _ hwf
          · rfl
      | logicalOperation op operands =>
        simp only [distOkCore] at hd
        simp only [parseClue, Expr.solved, hsv, if_false, Bool.false_eq_true]
        split
        · rcases hpc : parseClueListAnd operands m p sc with ⟨e1, ops1, m1⟩
          have h1 : m1.shape = m.shape := by
            have h := parseClueListAnd_shape operands m p sc hwf hd; rw [hpc] at h; exact h
          exact h1
        · split
          · rcases hpc : parseClueSnapshots operands m p sc with ⟨e1, ops1, snaps⟩
            cases e1 with
            | some t => rfl
            | none =>
              dsimp only
              exact maskFold_shape _ _ _ _ hwf
          · rfl
      | inOperator a b =>
        simp only [parseClue, Expr.solved, hsv, if_false, Bool.false_eq_true]
        split
        · split
          · split
            · rfl
            · split
              · rfl
              · exact inFold_shape _ _ _ _ hwf
          · rfl
        · rfl
      | relational op a b =>
        simp only [parseClue, Expr.solved, hsv, if_false, Bool.false_eq_true]
        split
        · rfl
        · split
          · rcases hpa : parseArithmetic b m p sc with ⟨r1, b1⟩
            cases r1 with
            | error t => rfl
            | ok rv =>
              dsimp only
              cases rv with
              | none => rfl
              | some rvv =>
                dsimp only
                split
                · rfl
                · rename_i lkey hlkeq
                  split
                  · rfl
                  · next hcount =>
                    split
                    · rfl
                    · apply relItems_shape _ _ _ _ _ sc.count hwf
                      have hcp : (m.getRow lkey).countP (fun x => x) = 1 := by
                        by_cases h : (m.getRow lkey).countP (fun x => x) = 1
                        · exact h
                        · exact absurd h (by simpa using hcount)
                      have hlen := hwf.getRow_length lkey
                      rcases hlen with hnil | hlen
                      · rw [hnil] at hcp; simp at hcp
                      · rw [← hlen]
                        exact findIdx_lt_of_countP_one _ hcp
          · split
            · rcases hpa : parseArithmetic a m p sc with ⟨l1, a1⟩
              cases l1 with
              | error t => rfl
              | ok lv =>
                dsimp only
                cases lv with
                | none => rfl
                | some lvv =>
                  dsimp only
                  split
                  · rfl
                  · rename_i rkey hrkeq
                    split
                    · rfl
                    · next hcount =>
                      split
                      · rfl
                      · apply relItems_shape _ _ _ _ _ sc.count hwf
                        have hcp : (m.getRow rkey).countP (fun x => x) = 1 := by
                          by_cases h : (m.getRow rkey).countP (fun x => x) = 1
                          · exact h
                          · exact absurd h (by simpa using hcount)
                        have hlen := hwf.getRow_length rkey
                        rcases hlen with hnil | hlen
                        · rw [hnil] at hcp; simp at hcp
                        · rw [← hlen]
                          exact findIdx_lt_of_countP_one _ hcp
            · rfl
      | identifier s => simp only [parseClue, Expr.solved, hsv, if_false]; rfl
      | numericLiteral v => simp only [parseClue, Expr.solved, hsv, if_false]; rfl
      | numericIdentifier s c => simp only [parseClue, Expr.solved, hsv, if_false]; rfl
      | setLiteral es => simp only [parseClue, Expr.solved, hsv, if_false]; rfl
      | rangeLiteral s e => simp only [parseClue, Expr.solved, hsv, if_false]; rfl
      | arithmeticBinary op a b => simp only [parseClue, Expr.solved, hsv, if_false]; rfl
      | logicalUnary op a => simp only [parseClue, Expr.solved, hsv, if_false]; rfl
      | truthsOperator s => simp only [parseClue, Expr.solved, hsv, if_false]; rfl
termination_by (sizeOf clue, 0)

theorem parseClueListAnd_shape (operands : List Expr) (m : Matrix) (p : IdP)
    (sc : SolverConfig) (hwf : MatWF m sc.count)
    (hd : distOkList sc.count operands = true) :
    (parseClueListAnd operands m p sc).2.2.shape = m.shape := by
  match operands with
  | [] => simp only [parseClueListAnd]
  | c :: rest =>
    simp only [distOkList, Bool.and_eq_true] at hd
    simp only [parseClueListAnd]
    rcases hpc : parseClue c m p sc with ⟨e1, c1, m1⟩
    have h1 : m1.shape = m.shape := by
      have h := parseClue_shape c m p sc hwf hd.1; rw [hpc] at h; exact h
    cases e1 with
    | some t => exact h1
    | none =>
      dsimp only
      have h2 := parseClueListAnd_shape rest m1 p sc (MatWF_of_shape h1 hwf) hd.2
      exact h2.trans h1
termination_by (sizeOf operands, 0)

end

end Zebra

namespace Zebra

/-! ## Claim C2 — monotone narrowing -/

/-- Config of the C2 counterexample: one strict category `c = [a, b]`, two
houses. -/
def c2cfg : SolverConfig :=
  { categories := [("c", ["a", "b"]), ("#", ["1", "2"])]
    greatCategories := []
    nameKV := [("a", "c.a"), ("b", "c.b")]
    itemOptions := ["c.a", "c.b"]
    count := 2
    combinations := generateAllCombinations 2 }

def c2m : Matrix :=
  [("c.a", [true, true]), ("c.b", [true, true]),
   ("#.1", [true, false]), ("#.2", [false, true])]

/-- The clue `a -3- b`: positional `-` with distance 3 > N = 2. -/
def c2clue : Expr :=
  .mk (.positional "-"
    (.mk (.identifier "a") none (none, none) false (1, 1))
    (.mk (.identifier "b") none (none, none) false (1, 8)) (some 3))
    none (none, none) false (1, 3)

theorem c2_counterexample :
    ((parseClue c2clue c2m (parseIdentifier c2cfg 1) c2cfg).2.2.getRow "c.b").length = 3 ∧
    (c2m.getRow "c.b").length = 2 ∧
    (parseClue c2clue c2m (parseIdentifier c2cfg 1) c2cfg).1 = none := by
  refine ⟨?_, by decide, ?_⟩ <;>
    simp [parseClue, c2clue, c2m, c2cfg, parseIdentifier, Expr.solved, Expr.symbol,
      objLookup, jsStartsWith, positionalDistanceEval, Matrix.getRow, Matrix.getCell,
      Matrix.setCell, jsSetElem, List.find?,
      show List.range 0 = [] from by decide,
      show List.range 3 = [0, 1, 2] from by decide]

/-- Claim C2 (amended): `parseClue` and `eliminateImpossibleOptions` only ever
turn cells from `true` to `false` (they never resurrect a possibility), and
they preserve the matrix dimensions provided every row has exactly `count`
cells and every positional distance in the clue is at most `count`; without
that distance bound a `-` clue can extend rows (see `c2_counterexample`). -/
theorem c2_amended :
    (∀ (clue : Expr) (m : Matrix) (p : IdP) (sc : SolverConfig),
      Narrow (parseClue clue m p sc).2.2 m) ∧
    (∀ (m : Matrix) (sc : SolverConfig), Narrow (eliminateImpossibleOptions m sc) m) ∧
    (∀ (clue : Expr) (m : Matrix) (p : IdP) (sc : SolverConfig),
      MatWF m sc.count → distOkE sc.count clue = true →
      (parseClue clue m p sc).2.2.shape = m.shape) ∧
    (∀ (m : Matrix) (sc : SolverConfig), MatWF m sc.count →
      (eliminateImpossibleOptions m sc).shape = m.shape) :=
  ⟨parseClue_narrow, eliminateImpossibleOptions_narrow,
    fun clue m p sc hwf hd => parseClue_shape clue m p sc hwf hd,
    fun m sc hwf => eliminateImpossibleOptions_shape m sc hwf⟩

def c2okClue : Expr :=
  .mk (.positional "-"
    (.mk (.identifier "a") none (none, none) false (1, 1))
    (.mk (.identifier "b") none (none, none) false (1, 8)) (some 1))
    none (none, none) false (1, 3)

theorem c2_amended_witness :
    Narrow (parseClue c2okClue c2m (parseIdentifier c2cfg 1) c2cfg).2.2 c2m ∧
    (parseClue c2okClue c2m (parseIdentifier c2cfg 1) c2cfg).2.2.shape = c2m.shape := by
  constructor
  · exact c2_amended.1 c2okClue c2m (parseIdentifier c2cfg 1) c2cfg
  · exact c2_amended.2.2.1 c2okClue c2m (parseIdentifier c2cfg 1) c2cfg
      (by unfold MatWF; decide) (by decide)

end Zebra

namespace Zebra

/-! ## Claim C3 — the checker is total and conservatively true -/

theorem gti_go_some (ar : List Bool) (i idx : Nat) :
    getTrueIndex.go ar i (some idx) =
      if ar.countP (fun x => x) = 0 then .ok idx else .error (.sentinel true) := by
  induction ar generalizing i with
  | nil => simp [getTrueIndex.go]
  | cons b rest ih =>
    cases b with
    | false => simpa [getTrueIndex.go, List.countP_cons] using ih (i + 1)
    | true => simp [getTrueIndex.go, List.countP_cons]

theorem gti_go_none_zero (ar : List Bool) (i : Nat)
    (h : ar.countP (fun x => x) = 0) :
    getTrueIndex.go ar i none = .error (.sentinel false) := by
  induction ar generalizing i with
  | nil => simp [getTrueIndex.go]
  | cons b rest ih =>
    cases b with
    | false =>
      simp only [List.countP_cons] at h
      simp only [getTrueIndex.go]
      exact ih (i + 1) (by simpa using h)
    | true => simp [List.countP_cons] at h

theorem gti_go_none_one (ar : List Bool) (i : Nat)
    (h : ar.countP (fun x => x) = 1) :
    ∃ j, getTrueIndex.go ar i none = .ok j := by
  induction ar generalizing i with
  | nil => simp [List.countP_nil] at h
  | cons b rest ih =>
    cases b with
    | false =>
      simp only [List.countP_cons] at h
      exact (by simpa [getTrueIndex.go] using ih (i + 1) (by simpa using h))
    | true =>
      simp only [List.countP_cons] at h
      norm_num at h
      have hz : List.countP (fun x => x) rest = 0 :=
        List.countP_eq_zero.mpr (fun a ha => by
          cases a
          · simp
          · exact absurd ha h)
      refine ⟨i, ?_⟩
      simp only [getTrueIndex.go, gti_go_some]
      rw [if_pos hz]
      simp

theorem gti_go_none_two (ar : List Bool) (i : Nat)
    (h : 2 ≤ ar.countP (fun x => x)) :
    getTrueIndex.go ar i none = .error (.sentinel true) := by
  induction ar generalizing i with
  | nil => simp [List.countP_nil] at h
  | cons b rest ih =>
    cases b with
    | false =>
      simp only [List.countP_cons] at h
      simp only [getTrueIndex.go]
      exact ih (i + 1) (by simpa using h)
    | true =>
      simp only [List.countP_cons] at h
      norm_num at h
      simp only [getTrueIndex.go, gti_go_some]
      rw [if_neg (show ¬(List.countP (fun x => x) rest = 0) by omega)]
      simp

/-- The sentinel characterisation: `throw false` = empty row, `throw true` =
multiply-occupied row, success = singleton row. -/
theorem getTrueIndex_spec (ar : List Bool) :
    (getTrueIndex ar = .error (.sentinel false) ↔ ar.countP (fun x => x) = 0) ∧
    (getTrueIndex ar = .error (.sentinel true) ↔ 2 ≤ ar.countP (fun x => x)) ∧
    ((∃ j, getTrueIndex ar = .ok j) ↔ ar.countP (fun x => x) = 1) := by
  unfold getTrueIndex
  refine ⟨⟨fun h => ?_, fun h => gti_go_none_zero ar 0 h⟩,
    ⟨fun h => ?_, fun h => gti_go_none_two ar 0 h⟩,
    ⟨fun h => ?_, fun h => gti_go_none_one ar 0 h⟩⟩
  · by_cases h0 : ar.countP (fun x => x) = 0
    · exact h0
    · by_cases h1 : ar.countP (fun x => x) = 1
      · obtain ⟨j, hj⟩ := gti_go_none_one ar 0 h1
        rw [hj] at h; cases h
      · rw [gti_go_none_two ar 0 (by omega)] at h; cases h
  · by_cases h0 : ar.countP (fun x => x) = 0
    · rw [gti_go_none_zero ar 0 h0] at h; cases h
    · by_cases h1 : ar.countP (fun x => x) = 1
      · obtain ⟨j, hj⟩ := gti_go_none_one ar 0 h1
        rw [hj] at h; cases h
      · omega
  · obtain ⟨j, hj⟩ := h
    by_cases h0 : ar.countP (fun x => x) = 0
    · rw [gti_go_none_zero ar 0 h0] at hj; cases hj
    · by_cases h1 : ar.countP (fun x => x) = 1
      · exact h1
      · rw [gti_go_none_two ar 0 (by omega)] at hj; cases hj

end Zebra

namespace Zebra

/-- Claim C3: `getTrueIndex` throws the sentinel `false` when a row has no
true cell and the sentinel `true` when it has several, and `checkClue` never
propagates an exception — any thrown value, the sentinels included, is
converted to the conservative answer `true`. -/
theorem c3_conservative_checker :
    (∀ ar : List Bool,
      (getTrueIndex ar = .error (.sentinel false) ↔ ar.countP (fun x => x) = 0) ∧
      (getTrueIndex ar = .error (.sentinel true) ↔ 2 ≤ ar.countP (fun x => x))) ∧
    (∀ (clue : Expr) (m : Matrix) (p : IdP) (sc : SolverConfig) (t : Thrown),
      clue.solved = none → (checkClueThrowable clue m p sc).1 = .error t →
      checkClue clue m p sc = true) ∧
    (∀ (clue : Expr) (m : Matrix) (p : IdP) (sc : SolverConfig),
      checkClue clue m p sc = false →
      clue.solved = some false ∨ (checkClueThrowable clue m p sc).1 = .ok false) := by
  refine ⟨fun ar => ⟨(getTrueIndex_spec ar).1, (getTrueIndex_spec ar).2.1⟩, ?_, ?_⟩
  · intro clue m p sc t hs ht
    simp only [checkClue]
    rw [hs]
    dsimp only
    rw [ht]
  · intro clue m p sc hfalse
    simp only [checkClue] at hfalse
    cases hs : clue.solved with
    | some b =>
      rw [hs] at hfalse
      dsimp only at hfalse
      exact Or.inl (by rw [hfalse])
    | none =>
      rw [hs] at hfalse
      dsimp only at hfalse
      cases hr : (checkClueThrowable clue m p sc).1 with
      | ok b =>
        rw [hr] at hfalse
        dsimp only at hfalse
        exact Or.inr (by rw [hfalse])
      | error t =>
        rw [hr] at hfalse
        dsimp only at hfalse
        cases hfalse

def c3cfg : SolverConfig :=
  { categories := [("c", ["a", "b"]), ("#", ["1", "2"])]
    greatCategories := []
    nameKV := [("a", "c.a"), ("b", "c.b")]
    itemOptions := ["c.a", "c.b"]
    count := 2
    combinations := generateAllCombinations 2 }

def c3m : Matrix :=
  [("c.a", [true, true]), ("c.b", [true, true]),
   ("#.1", [true, false]), ("#.2", [false, true])]

/-- `a = b` on a fully undetermined matrix: `getTrueIndex` throws the
"multiple true cells" sentinel and `checkClue` converts it to `true`. -/
def c3clue : Expr :=
  .mk (.positional "="
    (.mk (.identifier "a") none (none, none) false (1, 1))
    (.mk (.identifier "b") none (none, none) false (1, 5)) none)
    none (none, none) false (1, 3)

theorem c3_witness :
    (checkClueThrowable c3clue c3m (parseIdentifier c3cfg 1) c3cfg).1 =
      .error (.sentinel true) ∧
    checkClue c3clue c3m (parseIdentifier c3cfg 1) c3cfg = true ∧
    getTrueIndex [true, true] = .error (.sentinel true) := by
  have h1 : (checkClueThrowable c3clue c3m (parseIdentifier c3cfg 1) c3cfg).1 =
      .error (.sentinel true) := by
    simp [checkClueThrowable, c3clue, c3m, c3cfg, parseIdentifier, Expr.solved,
      Expr.symbol, objLookup, jsStartsWith, Matrix.getRow, getTrueIndex,
      getTrueIndex.go, List.find?]
  exact ⟨h1,
    c3_conservative_checker.2.1 c3clue c3m (parseIdentifier c3cfg 1) c3cfg _ rfl h1,
    ((c3_conservative_checker.1 [true, true]).2).mpr (by decide)⟩

end Zebra

namespace Zebra

/-! ## Claim C4 — `/` is JS floating division, not integer division -/

def c4cfg : SolverConfig :=
  { categories := [], greatCategories := [], nameKV := [], itemOptions := []
    count := 0, combinations := [[]] }

def pDummy : IdP := fun _ => .error (.typeError "resolver unused")

def c4lit (v : ℚ) : Expr := .mk (.numericLiteral v) none (none, none) false (1, 1)

def c4expr : Expr :=
  .mk (.arithmeticBinary "/" (c4lit 7) (c4lit 2)) none (none, none) false (1, 2)

theorem c4_counterexample :
    (parseArithmetic c4expr [] pDummy c4cfg).1 = .ok (some (some ((7 : ℚ) / 2))) ∧
    (7 : ℚ) / 2 ≠ (3 : ℚ) := by
  constructor
  · simp [parseArithmetic, c4expr, c4lit, jsDiv]
  · norm_num

/-- Claim C4 (amended): the arithmetic `/` operator is JavaScript floating
division — on numeric operands the evaluator returns the exact rational
quotient `a / b`, not an integer division. -/
theorem c4_division_exact (a b : Expr) (sv : Option Bool)
    (st : Option NumV × Option NumV) (d : Bool) (ps : Nat × Nat)
    (m : Matrix) (p : IdP) (sc : SolverConfig) (qa qb : ℚ)
    (ha : (parseArithmetic a m p sc).1 = .ok (some (some qa)))
    (hb : (parseArithmetic b m p sc).1 = .ok (some (some qb)))
    (hqb : qb ≠ 0) :
    (parseArithmetic (.mk (.arithmeticBinary "/" a b) sv st d ps) m p sc).1 =
      .ok (some (some (qa / qb))) := by
  rcases hpa : parseArithmetic a m p sc with ⟨r1, a'⟩
  rw [hpa] at ha
  rcases hpb : parseArithmetic b m p sc with ⟨r2, b'⟩
  rw [hpb] at hb
  dsimp only at ha hb
  subst ha; subst hb
  simp [parseArithmetic, hpa, hpb, jsDiv, hqb]

theorem c4_division_witness :
    (parseArithmetic c4expr [] pDummy c4cfg).1 = .ok (some (some ((7 : ℚ) / 2))) :=
  c4_division_exact (c4lit 7) (c4lit 2) none (none, none) false (1, 2) [] pDummy c4cfg 7 2
    (by simp [parseArithmetic, c4lit]) (by simp [parseArithmetic, c4lit]) (by norm_num)

/-! ## Claim C5 — resolver errors are swallowed during checking -/

def c5cfg : SolverConfig :=
  { categories := [("c", ["a", "b"]), ("#", ["1", "2"])]
    greatCategories := []
    nameKV := [("a", "c.a"), ("b", "c.b")]
    itemOptions := ["c.a", "c.b"]
    count := 2
    combinations := generateAllCombinations 2 }

def c5m : Matrix :=
  [("c.a", [true, false]), ("c.b", [false, true]),
   ("#.1", [true, false]), ("#.2", [false, true])]

/-- `ghost = ghost` where `ghost` resolves to nothing: the resolver throws
`UnknownIdentifier`, which `checkClue` silently converts to `true`. -/
def c5clue : Expr :=
  .mk (.positional "="
    (.mk (.identifier "ghost") none (none, none) false (3, 1))
    (.mk (.identifier "ghost") none (none, none) false (3, 9)) none)
    none (none, none) false (3, 5)

theorem c5_counterexample :
    (checkClueThrowable c5clue c5m (parseIdentifier c5cfg 1) c5cfg).1 =
      .error (.solverError "Identifier ghost not found." (3, 1)) ∧
    checkClue c5clue c5m (parseIdentifier c5cfg 1) c5cfg = true := by
  have h1 : (checkClueThrowable c5clue c5m (parseIdentifier c5cfg 1) c5cfg).1 =
      .error (.solverError "Identifier ghost not found." (3, 1)) := by
    simp [checkClueThrowable, c5clue, c5m, c5cfg, parseIdentifier, Expr.solved,
      Expr.symbol, Expr.pos, objLookup, jsStartsWith]
  refine ⟨h1, ?_⟩
  simp only [checkClue]
  rw [show c5clue.solved = (none : Option Bool) from rfl]
  dsimp only
  rw [h1]

/-- Claim C5 (amended): during propagation the positional `=`/`-` evaluator
propagates a resolver `SolverError` to its caller, but during checking
`checkClue`'s catch-all converts the same error (like every other throw)
into the conservative answer `true` instead of reporting it. -/
theorem c5_amended :
    (∀ (op : String) (a b : Expr) (dist : Option Nat)
      (st : Option NumV × Option NumV) (d : Bool) (ps : Nat × Nat)
      (m : Matrix) (p : IdP) (sc : SolverConfig) (err : Thrown),
      (op = "=" ∨ op = "-") → p a = .error err →
      parseClue (.mk (.positional op a b dist) none st d ps) m p sc =
        (some err, .mk (.positional op a b dist) none st d ps, m)) ∧
    (∀ (clue : Expr) (m : Matrix) (p : IdP) (sc : SolverConfig)
      (msg : String) (pos : Nat × Nat),
      clue.solved = none →
      (checkClueThrowable clue m p sc).1 = .error (.solverError msg pos) →
      checkClue clue m p sc = true) := by
  constructor
  · intro op a b dist st d ps m p sc err hop herr
    have hop' : (op = "=" || op = "-") = true := by
      rcases hop with h | h <;> simp [h]
    simp [parseClue, Expr.solved, hop', herr]
  · intro clue m p sc msg pos hs ht
    simp only [checkClue]
    rw [hs]
    dsimp only
    rw [ht]

theorem c5_amended_witness :
    parseClue c5clue c5m (parseIdentifier c5cfg 1) c5cfg =
      (some (.solverError "Identifier ghost not found." (3, 1)), c5clue, c5m) ∧
    checkClue c5clue c5m (parseIdentifier c5cfg 1) c5cfg = true := by
  have herr : parseIdentifier c5cfg 1 (.mk (.identifier "ghost") none (none, none) false (3, 1)) =
      .error (.solverError "Identifier ghost not found." (3, 1)) := by
    simp [parseIdentifier, Expr.symbol, Expr.pos, objLookup, jsStartsWith, c5cfg]
  refine ⟨?_, ?_⟩
  · exact c5_amended.1 "=" _ _ none (none, none) false (3, 5) c5m
      (parseIdentifier c5cfg 1) c5cfg _ (Or.inl rfl) herr
  · exact c5_amended.2 c5clue c5m (parseIdentifier c5cfg 1) c5cfg
      "Identifier ghost not found." (3, 1) rfl
      (by simp [checkClueThrowable, c5clue, c5m, c5cfg, parseIdentifier,
        Expr.symbol, Expr.pos, Expr.solved, objLookup, jsStartsWith])

end Zebra

namespace Zebra

/-! ## Claim C7 — `truths` counts conservative trues, and a sentinel aborts it -/

theorem truthsFold_ok (elems : List Expr) (m : Matrix) (p : IdP) (sc : SolverConfig)
    (acc n : Nat) (h : (truthsFold elems m p sc acc).1 = .ok n) :
    n = acc + elems.countP (fun c =>
      match (checkClueThrowable c m p sc).1 with | .ok true => true | _ => false) := by
  induction elems generalizing acc with
  | nil =>
    simp only [truthsFold] at h
    cases h
    simp
  | cons c rest ih =>
    simp only [truthsFold] at h
    rcases hc : checkClueThrowable c m p sc with ⟨rc, c'⟩
    rw [hc] at h
    cases rc with
    | error t => cases h
    | ok x =>
      dsimp only at h
      rcases hr : truthsFold rest m p sc (if x then acc + 1 else acc) with ⟨rr, rest'⟩
      rw [hr] at h
      cases rr with
      | error t => cases h
      | ok nn =>
        dsimp only at h
        cases h
        have := ih (if x then acc + 1 else acc) (by rw [hr])
        rw [this, List.countP_cons]
        rw [hc]
        cases x <;> simp only [if_true, if_false, Bool.false_eq_true, ite_true, ite_false] <;>
          omega

/-- Claim C7 (amended): a `truths` expression counts the set elements whose
throwable check returns `true` — which is the conservative answer, so an
under-determined element is counted as true, not as "not true" — and a
sentinel or error thrown by any element aborts the whole count. -/
theorem c7_amended (elems : List Expr) (ssv : Option Bool)
    (sst : Option NumV × Option NumV) (sd : Bool) (sps : Nat × Nat)
    (sv : Option Bool) (st : Option NumV × Option NumV) (d : Bool) (ps : Nat × Nat)
    (m : Matrix) (p : IdP) (sc : SolverConfig) :
    (∀ v, (parseArithmetic
        (.mk (.truthsOperator (.mk (.setLiteral elems) ssv sst sd sps)) sv st d ps)
        m p sc).1 = .ok v →
      v = some (some ((elems.countP (fun c =>
        match (checkClueThrowable c m p sc).1 with
        | .ok true => true | _ => false) : Nat) : ℚ))) ∧
    (∀ t, (truthsFold elems m p sc 0).1 = .error t →
      (parseArithmetic
        (.mk (.truthsOperator (.mk (.setLiteral elems) ssv sst sd sps)) sv st d ps)
        m p sc).1 = .error t) := by
  constructor
  · intro v hv
    rcases htf : truthsFold elems m p sc 0 with ⟨r, elems'⟩
    simp only [parseArithmetic] at hv
    rw [htf] at hv
    cases r with
    | error t => cases hv
    | ok n =>
      dsimp only at hv
      cases hv
      have := truthsFold_ok elems m p sc 0 n (by rw [htf])
      rw [this]
      norm_num
  · intro t ht
    rcases htf : truthsFold elems m p sc 0 with ⟨r, elems'⟩
    rw [htf] at ht
    dsimp only at ht
    subst ht
    simp only [parseArithmetic]
    rw [htf]

end Zebra

namespace Zebra

def c7cfg : SolverConfig :=
  { categories := [("c", ["x", "y"]), ("age", ["1", "2"])]
    greatCategories := []
    nameKV := [("x", "c.x"), ("y", "c.y"), ("1", "age.1"), ("2", "age.2")]
    itemOptions := ["c.x", "c.y", "age.1", "age.2"]
    count := 2, combinations := [[]] }

def c7m : Matrix :=
  [("c.x", [true, true]), ("c.y", [true, true]),
   ("age.1", [true, false]), ("age.2", [false, true])]

def c7numid : Expr :=
  .mk (.numericIdentifier "x" "age") none (none, none) false (3, 1)

def c7elem : Expr :=
  .mk (.relational "==" c7numid
      (.mk (.numericLiteral 5) none (none, none) false (3, 8)))
    none (none, none) false (3, 1)

def c7expr : Expr :=
  .mk (.truthsOperator
      (.mk (.setLiteral [c7elem]) none (none, none) false (3, 0)))
    none (none, none) false (3, 0)

theorem c7_counterexample :
    (parseArithmetic c7expr c7m (parseIdentifier c7cfg 1) c7cfg).1 =
      .ok (some (some (1 : ℚ))) ∧
    (parseArithmetic c7numid c7m (parseIdentifier c7cfg 1) c7cfg).1 = .ok none ∧
    (checkClueThrowable c7elem c7m (parseIdentifier c7cfg 1) c7cfg).2.solved = none ∧
    (checkClueThrowable c7elem c7m (parseIdentifier c7cfg 1) c7cfg).1 = .ok true ∧
    (1 : ℚ) ≠ 0 := by
  have hnum : (parseArithmetic c7numid c7m (parseIdentifier c7cfg 1) c7cfg).1 =
      .ok none := by
    simp [parseArithmetic, c7numid, c7m, c7cfg, parseIdentifier, Expr.symbol,
      Expr.pos, objLookup, jsStartsWith, Matrix.getRow, List.find?,
      SolverConfig.category?, numIdScan, numIdInner, Matrix.getCell,
      parseIntJS, jsNe, jsEq, List.enum]
  have helem : checkClueThrowable c7elem c7m (parseIdentifier c7cfg 1) c7cfg =
      (.ok true,
        .mk (.relational "==" c7numid
            (.mk (.numericLiteral 5) none (none, none) false (3, 8)))
          none (none, some (some 5)) false (3, 1)) := by
    simp [checkClueThrowable, c7elem, c7numid, c7m, c7cfg, parseIdentifier,
      Expr.symbol, Expr.pos, Expr.solved, objLookup, jsStartsWith,
      Matrix.getRow, List.find?, SolverConfig.category?, numIdScan, numIdInner,
      Matrix.getCell, parseIntJS, jsNe, jsEq, List.enum, relationalOk,
      parseArithmetic, Option.orElse]
  refine ⟨?_, hnum, by rw [helem]; rfl, by rw [helem], by norm_num⟩

  simp [parseArithmetic, c7expr, truthsFold, helem]

theorem c7_witness :
    (some (some ((1 : ℚ))) : Option NumV) =
      some (some (([c7elem].countP (fun c =>
        match (checkClueThrowable c c7m (parseIdentifier c7cfg 1) c7cfg).1 with
        | .ok true => true | _ => false) : Nat) : ℚ)) :=
  (c7_amended [c7elem] none (none, none) false (3, 0) none (none, none)
      false (3, 0) c7m (parseIdentifier c7cfg 1) c7cfg).1
    (some (some 1)) (by
      have helem : checkClueThrowable c7elem c7m (parseIdentifier c7cfg 1) c7cfg =
          (.ok true,
            .mk (.relational "==" c7numid
                (.mk (.numericLiteral 5) none (none, none) false (3, 8)))
              none (none, some (some 5)) false (3, 1)) := by
        simp [checkClueThrowable, c7elem, c7numid, c7m, c7cfg, parseIdentifier,
          Expr.symbol, Expr.pos, Expr.solved, objLookup, jsStartsWith,
          Matrix.getRow, List.find?, SolverConfig.category?, numIdScan, numIdInner,
          Matrix.getCell, parseIntJS, jsNe, jsEq, List.enum, relationalOk,
          parseArithmetic, Option.orElse]
      simp [parseArithmetic, truthsFold, helem])

end Zebra

namespace Zebra

/-! ## Claim C8 — colliding short names toggle instead of staying removed -/

theorem c8_counterexample :
    shortNamesMap [("c1", ["x"]), ("c2", ["x"]), ("c3", ["x"])] [] =
      .ok ⟨[("x", "c3.x")], ["c1.x", "c2.x", "c3.x"], 1⟩ ∧
    objLookup [("x", "c3.x")] "x" = some "c3.x" ∧
    ([("c1", ["x"]), ("c2", ["x"]), ("c3", ["x"])] :
        List (String × List String)).countP (fun c => c.2.contains "x") = 3 ∧
    3 > 1 := by
  exact ⟨rfl, by decide, by decide, by norm_num⟩

/-- Claim C8 (amended): the short-name table toggles a colliding name rather
than removing it for good — an occurrence of an item name that is absent
appends its entry, an occurrence that is present erases exactly the earlier
entry (restoring the table), so a name shared by an odd number of categories
ends up mapped to its last category (see `c8_counterexample`). -/
theorem c8_amended :
    (∀ (kva : List (String × String)) (item full : String),
      kva.any (fun kv => kv.1 = item) = false →
      kvaStep kva item full = kva ++ [(item, full)]) ∧
    (∀ (kva : List (String × String)) (item full : String),
      kva.any (fun kv => kv.1 = item) = true →
      kvaStep kva item full = kva.eraseP (fun kv => kv.1 = item)) ∧
    (∀ (kva : List (String × String)) (item full full2 : String),
      kva.any (fun kv => kv.1 = item) = false →
      kvaStep (kvaStep kva item full) item full2 = kva) := by
  refine ⟨?_, ?_, ?_⟩
  · intro kva item full h
    simp [kvaStep, h]
  · intro kva item full h
    simp [kvaStep, h]
  · intro kva item full full2 h
    have h1 : kvaStep kva item full = kva ++ [(item, full)] := by simp [kvaStep, h]
    rw [h1]
    have h2 : (kva ++ [(item, full)]).any (fun kv => kv.1 = item) = true := by
      simp
    simp only [kvaStep, h2, if_true]
    rw [List.eraseP_append_right]
    · simp
    · intro b hb
      simp only [List.any_eq_false] at h
      simpa using h b hb

theorem c8_witness :
    kvaStep ([] : List (String × String)) "x" "c1.x" = [] ++ [("x", "c1.x")] ∧
    kvaStep [("x", "c1.x")] "x" "c2.x" =
      [("x", "c1.x")].eraseP (fun kv => kv.1 = "x") ∧
    kvaStep (kvaStep [("y", "a.y")] "x" "c1.x") "x" "c2.x" = [("y", "a.y")] :=
  ⟨c8_amended.1 [] "x" "c1.x" (by decide),
   c8_amended.2.1 [("x", "c1.x")] "x" "c2.x" (by decide),
   c8_amended.2.2 [("y", "a.y")] "x" "c1.x" "c2.x" (by decide)⟩

end Zebra

namespace Zebra

/-! ## Claim C6 — the subset engine's clearing loops stop at `k`, not `N` -/

def c6cfg : SolverConfig :=
  { categories := [("c", ["a", "b"])]
    greatCategories := []
    nameKV := [("a", "c.a"), ("b", "c.b")]
    itemOptions := ["c.a", "c.b"]
    count := 2, combinations := generateAllCombinations 2 }

def c6m : Matrix := [("c.a", [true, false]), ("c.b", [true, true])]

/-- Claim C6: the subset elimination engine's clearing loops run the row and
column indices only up to the subset size `k` (the source's inner loops use
the shadowing loop variable, not `sc.count`), so a matching subset whose
excluded cells lie at indices `≥ k` clears nothing: on this concrete input
the claimed cell `(c.b, 0)` stays `true` and the matrix is unchanged. -/
theorem c6_code_bug :
    eliminateImpossibleOptionsByCategory c6m "c" c6cfg = c6m ∧
    (List.range 2).filter (fun i =>
      [1].all (fun col =>
        !(c6m.getCell ("c." ++ ((["a", "b"] : List String).getD i "undefined")) col)))
      = [0] ∧
    c6m.getCell "c.b" 0 = true ∧
    c6cfg.count - 1 ≤ 1 := by
  refine ⟨?_, by decide, by decide, by decide⟩
  decide

end Zebra

namespace Zebra

/-! ## Claim C9 — resuming from the returned stack composes budgets -/

theorem runIterations_nil (sc : SolverConfig) (k : Nat) :
    runIterations sc k [] = .ok (true, [], []) := by
  cases k <;> simp [runIterations]

/-- Claim C9: running the solver for `k1 + k2` iterations equals running it
for `k1` iterations and resuming from the returned option stack for `k2`
more, with the solutions of the two runs concatenated. -/
theorem c9_composition (sc : SolverConfig) (k1 k2 : Nat)
    (stack : List IterationState) :
    runIterations sc (k1 + k2) stack =
      match runIterations sc k1 stack with
      | .error t => .error t
      | .ok (_, s1, sols1) =>
        match runIterations sc k2 s1 with
        | .error t => .error t
        | .ok (d2, s2, sols2) => .ok (d2, s2, sols1 ++ sols2) := by
  induction k1 generalizing stack with
  | zero =>
    rw [Nat.zero_add]
    simp only [runIterations]
    cases h : runIterations sc k2 stack with
    | error t => rfl
    | ok r => rcases r with ⟨d2, s2, sols2⟩; simp
  | succ k ih =>
    rw [show k + 1 + k2 = (k + k2) + 1 from by omega]
    cases stack with
    | nil =>
      simp only [runIterations, List.isEmpty_nil, if_true]
      rw [runIterations_nil]
      rfl
    | cons a rest =>
      simp only [runIterations, List.isEmpty_cons, Bool.false_eq_true, if_false]
      cases hw : wave sc (a :: rest) with
      | mk e pr =>
        cases e with
        | some t => rfl
        | none =>
          rcases pr with ⟨next, sols⟩
          dsimp only
          rw [ih next]
          cases h1 : runIterations sc k next with
          | error t => rfl
          | ok r1 =>
            rcases r1 with ⟨d1, s1, sols1⟩
            dsimp only
            cases h2 : runIterations sc k2 s1 with
            | error t => rfl
            | ok r2 =>
              rcases r2 with ⟨d2, s2, sols2⟩
              simp

end Zebra

namespace Zebra

/-! ## Claim C10 — `checkClue` mutates neither the matrix nor the caller's clue -/

def c10cfg : SolverConfig :=
  { categories := [("c", ["a", "b"])]
    greatCategories := []
    nameKV := [("a", "c.a"), ("b", "c.b")]
    itemOptions := ["c.a", "c.b"]
    count := 2, combinations := [[]] }

def c10m : Matrix := [("c.a", [true, false]), ("c.b", [false, true])]

def c10clue : Expr :=
  .mk (.positional "="
    (.mk (.identifier "a") none (none, none) false (1, 1))
    (.mk (.identifier "a") none (none, none) false (1, 5)) none)
    none (none, none) false (1, 3)

/-- Claim C10: `checkClue` has no side effects on its inputs — it checks a
clone of the clue, so the caller's clue (its `solved` and `states` memo
fields included) and the matrix are unchanged after the call, even though
the underlying throwable checker does write `solved` into the node it is
given, as the concrete conjuncts show. -/
theorem c10_frame :
    (∀ (clue : Expr) (m : Matrix) (p : IdP) (sc : SolverConfig),
      checkClueFull clue m p sc = (checkClue clue m p sc, clue, m)) ∧
    (checkClueThrowable c10clue c10m (parseIdentifier c10cfg 1) c10cfg).2.solved
      = some true ∧
    c10clue.solved = none := by
  refine ⟨?_, ?_, rfl⟩
  · intro clue m p sc
    simp only [checkClueFull, checkClue]
    cases h : clue.solved with
    | some b => rfl
    | none =>
      dsimp only
      cases hc : checkClueThrowable clue m p sc with
      | mk r c' => cases r <;> rfl
  · simp [checkClueThrowable, c10clue, c10m, c10cfg, parseIdentifier, Expr.symbol,
      Expr.solved, Expr.pos, objLookup, jsStartsWith, Matrix.getRow, List.find?,
      getTrueIndex, getTrueIndex.go]

end Zebra

namespace Zebra

/-! ## Claim C1 — soundness of the recorded solutions -/

theorem mem_trueIndices (row : List Bool) (col : Nat) :
    (col ∈ (row.enum.filter (fun pr => pr.2)).map (·.1)) ↔
      row.getD col false = true := by
  rw [List.getD_eq_getElem?_getD]
  constructor
  · intro h
    rcases List.mem_map.mp h with ⟨pr, hpr, rfl⟩
    rcases List.mem_filter.mp hpr with ⟨hmem, h2⟩
    rcases pr with ⟨i, b⟩
    simp only [decide_eq_true_eq] at h2
    rw [List.mk_mem_enum_iff_getElem?] at hmem
    subst h2
    simp [hmem]
  · intro h
    have hx : row[col]? = some true := by
      cases hx : row[col]? with
      | none => rw [hx] at h; simp at h
      | some b => rw [hx] at h; simp at h; simp [h]
    exact List.mem_map.mpr ⟨(col, true),
      List.mem_filter.mpr ⟨(List.mk_mem_enum_iff_getElem?).mpr hx, by simp⟩, rfl⟩

theorem countP_enumFrom (l : List Bool) :
    ∀ n, (List.enumFrom n l).countP (fun pr => pr.2) = l.countP (fun b => b) := by
  induction l with
  | nil => intro n; rfl
  | cons a rest ih => intro n; simp [List.countP_cons, ih]

theorem trueIndices_length (row : List Bool) :
    ((row.enum.filter (fun pr => pr.2)).map (·.1)).length =
      row.countP (fun b => b) := by
  rw [List.length_map, ← List.countP_eq_length_filter, List.enum,
    countP_enumFrom]

theorem getD_false_of_countP_zero (row : List Bool)
    (h : row.countP (fun b => b) = 0) (col : Nat) : row.getD col false = false := by
  cases hx : row[col]? with
  | none => simp [List.getD_eq_getElem?_getD, hx]
  | some b =>
    have hb : b ∈ row := List.getElem?_mem hx
    have := List.countP_eq_zero.mp h b hb
    simp only [decide_eq_true_eq] at this
    simp [List.getD_eq_getElem?_getD, hx, Bool.eq_false_iff.mpr this]

theorem scanFoldl_snd_true (tis : List Nat) :
    ∀ (ch : List Bool) (ok : Bool),
    ((tis.foldl (fun (acc : List Bool × Bool) ti =>
      (acc.1.set ti true, acc.2 && !(acc.1.getD ti false))) (ch, ok)).2 = true) →
    ok = true := by
  induction tis with
  | nil => intro ch ok h; simpa using h
  | cons t rest ih =>
    intro ch ok h
    simp only [List.foldl_cons] at h
    exact (Bool.and_eq_true_iff.mp (ih _ _ h)).1

theorem catScanItems_sound (m : Matrix) (cat : String) (great : Bool)
    (items : List String) :
    ∀ (colHas : List Bool) (ok : Bool) (colHas' : List Bool),
    catScanItems m cat great items colHas ok = some (colHas', true) →
    ok = true ∧ colHas'.length = colHas.length ∧
    (∀ item ∈ items, (m.getRow (cat ++ "." ++ item)).countP (fun b => b) ≤ 1) ∧
    (great = false → ∀ item ∈ items,
      (m.getRow (cat ++ "." ++ item)).countP (fun b => b) = 1) ∧
    (∀ col, col < colHas.length → colHas.getD col false = false →
      items.countP (fun it => m.getCell (cat ++ "." ++ it) col)
        = if colHas'.getD col false then 1 else 0) ∧
    (∀ col, col < colHas.length → colHas.getD col false = true →
      items.countP (fun it => m.getCell (cat ++ "." ++ it) col) = 0 ∧
      colHas'.getD col false = true) := by
  induction items with
  | nil =>
    intro colHas ok colHas' h
    simp only [catScanItems, Option.some.injEq, Prod.mk.injEq] at h
    obtain ⟨h1, h2⟩ := h
    subst h1
    refine ⟨h2, rfl, by simp, by simp, ?_, ?_⟩
    · intro col _ hfalse
      simp only [List.getD_eq_getElem?_getD] at hfalse
      simp [hfalse]
    · intro col _ htrue
      exact ⟨by simp, htrue⟩
  | cons item rest ih =>
    intro colHas ok colHas' h
    simp only [catScanItems] at h
    split at h
    · exact Option.noConfusion h
    · rename_i hcond
      set tis := (((m.getRow (cat ++ "." ++ item)).enum.filter
        (fun pr => pr.2)).map (·.1)) with htis
      obtain ⟨hacc2, hlen, hrest1, hrest2, hrestF, hrestT⟩ := ih _ _ _ h
      have hok1 := scanFoldl_snd_true tis colHas _ hacc2
      obtain ⟨hok, hle'⟩ := Bool.and_eq_true_iff.mp hok1
      have hle : tis.length ≤ 1 := of_decide_eq_true hle'
      have hmem : ∀ col, (m.getRow (cat ++ "." ++ item)).getD col false = true ↔
          col ∈ tis := fun col => (mem_trueIndices _ col).symm
      have hcnt : (m.getRow (cat ++ "." ++ item)).countP (fun b => b) =
          tis.length := (trueIndices_length _).symm
      clear_value tis
      rcases tis with _ | ⟨ti, _ | ⟨t2, ts⟩⟩
      · -- no true cell in this row
        simp only [List.foldl_nil] at h hacc2 hlen hrestF hrestT
        have hgreat : great = true := by simpa using hcond
        have hcell : ∀ col, m.getCell (cat ++ "." ++ item) col = false := by
          intro col
          exact getD_false_of_countP_zero _ (by simp [hcnt]) col
        refine ⟨hok, hlen, ?_, ?_, ?_, ?_⟩
        · intro it hit
          rcases List.mem_cons.mp hit with rfl | hmem2
          · simp [hcnt]
          · exact hrest1 it hmem2
        · intro hgf
          rw [hgf] at hgreat; exact absurd hgreat (by simp)
        · intro col hlt hfalse
          rw [List.countP_cons]
          simp only [hcell col, if_false]
          simpa using hrestF col hlt hfalse
        · intro col hlt htrue
          obtain ⟨hc0, hc1⟩ := hrestT col hlt htrue
          refine ⟨?_, hc1⟩
          rw [List.countP_cons]
          simp [hcell col, hc0]
      · -- exactly one true cell, at index ti
        simp only [List.foldl_cons, List.foldl_nil] at h hacc2 hlen hrestF hrestT
        obtain ⟨_, hset⟩ := Bool.and_eq_true_iff.mp hacc2
        have hNotSet : colHas.getD ti false = false := by
          simpa using hset
        have hcellT : m.getCell (cat ++ "." ++ item) ti = true :=
          (hmem ti).mpr (by simp)
        have hcellF : ∀ col, col ≠ ti → m.getCell (cat ++ "." ++ item) col = false := by
          intro col hne
          have := (hmem col)
          rcases hcc : (m.getRow (cat ++ "." ++ item)).getD col false with _ | _
          · exact hcc
          · exact absurd (this.mp hcc) (by simp [hne])
        have hsetlen : (colHas.set ti true).length = colHas.length :=
          List.length_set colHas ti true
        refine ⟨hok, by rw [hlen, hsetlen], ?_, ?_, ?_, ?_⟩
        · intro it hit
          rcases List.mem_cons.mp hit with rfl | hmem2
          · simp [hcnt]
          · exact hrest1 it hmem2
        · intro hgf
          intro it hit
          rcases List.mem_cons.mp hit with rfl | hmem2
          · simp [hcnt]
          · exact hrest2 hgf it hmem2
        · intro col hlt hfalse
          rw [List.countP_cons]
          by_cases hcti : col = ti
          · subst hcti
            have hlt' : col < (colHas.set col true).length := by rwa [hsetlen]
            have hset' : (colHas.set col true).getD col false = true := by
              simp [List.getD_eq_getElem?_getD, List.getElem?_set_self,
                (hsetlen ▸ hlt' : col < colHas.length)]
            obtain ⟨hc0, hc1⟩ := hrestT col hlt' hset'
            simp only [List.getD_eq_getElem?_getD] at hc1
            simp [hcellT, hc0, hc1]
          · have hset' : (colHas.set ti true).getD col false =
                colHas.getD col false := by
              simp [List.getD_eq_getElem?_getD,
                List.getElem?_set_ne (Ne.symm hcti)]
            have := hrestF col (by rwa [hsetlen]) (by rw [hset']; exact hfalse)
            simp only [hcellF col hcti, if_false]
            simpa using this
        · intro col hlt htrue
          have hcti : col ≠ ti := by
            intro hc; subst hc; rw [htrue] at hNotSet; exact absurd hNotSet (by simp)
          have hset' : (colHas.set ti true).getD col false =
              colHas.getD col false := by
            simp [List.getD_eq_getElem?_getD, List.getElem?_set_ne (Ne.symm hcti)]
          obtain ⟨hc0, hc1⟩ := hrestT col (by rwa [hsetlen]) (by rw [hset']; exact htrue)
          refine ⟨?_, hc1⟩
          rw [List.countP_cons]
          simp [hcellF col hcti, hc0]
      · -- two or more true cells: contradicts ok' = true
        simp at hle

theorem replicate_getD_false (count j : Nat) :
    (List.replicate count false).getD j false = false := by
  rcases lt_or_ge j count with h | h
  · simp [List.getD_eq_getElem?_getD, List.getElem?_replicate, h]
  · have hnone : (List.replicate count false)[j]? = none :=
      List.getElem?_eq_none (by simpa using h)
    simp [List.getD_eq_getElem?_getD, hnone]

theorem validateCategories_sound (m : Matrix) (count : Nat) (great : List String)
    (cats : List (String × List String)) :
    ∀ (ok : Bool), validateCategories m count great cats ok = some true →
    ok = true ∧
    ∀ pr ∈ cats,
      (∀ item ∈ pr.2, (m.getRow (pr.1 ++ "." ++ item)).countP (fun b => b) ≤ 1) ∧
      (great.contains pr.1 = false →
        ∀ item ∈ pr.2, (m.getRow (pr.1 ++ "." ++ item)).countP (fun b => b) = 1) ∧
      (∀ col, col < count →
        pr.2.countP (fun it => m.getCell (pr.1 ++ "." ++ it) col) = 1) := by
  induction cats with
  | nil =>
    intro ok h
    simp only [validateCategories, Option.some.injEq] at h
    exact ⟨h, by simp⟩
  | cons c rest ih =>
    intro ok h
    rcases c with ⟨cat, items⟩
    simp only [validateCategories] at h
    cases hcs : catScanItems m cat (great.contains cat) items
        (List.replicate count false) ok with
    | none => rw [hcs] at h; cases h
    | some pr2 =>
      rcases pr2 with ⟨colHas, ok'⟩
      rw [hcs] at h
      dsimp only at h
      split at h
      · cases h
      · rename_i hcf
        obtain ⟨hok', hrest⟩ := ih ok' h
        subst hok'
        obtain ⟨hok, hlen, h1, h2, hF, _⟩ :=
          catScanItems_sound m cat (great.contains cat) items _ _ _ hcs
        refine ⟨hok, ?_⟩
        intro pr hpr
        rcases List.mem_cons.mp hpr with rfl | hmem
        · refine ⟨h1, h2, ?_⟩
          intro col hcol
          have hlt : col < (List.replicate count false).length := by simpa using hcol
          have hnotmem : false ∉ colHas := by simpa using hcf
          have hcolHas : colHas.getD col false = true := by
            have hclen : col < colHas.length := by
              rw [hlen]; simpa using hcol
            have hmm : colHas[col] ∈ colHas := List.getElem_mem hclen
            have hne : colHas[col] = true := by
              cases hcc : colHas[col] with
              | true => rfl
              | false => exact absurd (hcc ▸ hmm) hnotmem
            simp [List.getD_eq_getElem?_getD, List.getElem?_eq_getElem hclen, hne]
          have hcp := hF col hlt (replicate_getD_false count col)
          rw [hcolHas] at hcp
          simpa using hcp
        · exact hrest pr hmem

end Zebra

namespace Zebra

theorem checkClueDLoop_sound (sc : SolverConfig) (m : Matrix) (clue : Expr) :
    ∀ ds, checkClueDLoop sc m clue ds = true →
    (clue.dollar = true → ∀ d ∈ ds,
      checkClue clue m (parseIdentifier sc d) sc = true) ∧
    (clue.dollar = false → ∀ d ∈ ds.take 1,
      checkClue clue m (parseIdentifier sc d) sc = true) := by
  intro ds
  induction ds with
  | nil =>
    intro _
    exact ⟨fun _ d hd => absurd hd (by simp), fun _ d hd => absurd hd (by simp)⟩
  | cons d rest ih =>
    intro h
    simp only [checkClueDLoop] at h
    by_cases hc : checkClue clue m (parseIdentifier sc d) sc = true
    · rw [hc] at h
      simp only [Bool.not_true, Bool.false_eq_true, if_false] at h
      constructor
      · intro hd d2 hd2
        rw [hd] at h
        simp only [Bool.not_true, Bool.false_eq_true, if_false] at h
        rcases List.mem_cons.mp hd2 with rfl | hmem
        · exact hc
        · exact (ih h).1 hd d2 hmem
      · intro _ d2 hd2
        have hd2d : d2 = d := by simpa using hd2
        rw [hd2d]
        exact hc
    · have hcf : checkClue clue m (parseIdentifier sc d) sc = false :=
        Bool.eq_false_iff.mpr hc
      rw [hcf] at h
      simp at h

theorem checkCluesAll_sound (sc : SolverConfig) (m : Matrix) :
    ∀ (clues : List Expr), checkCluesAll sc m clues = true →
    ∀ clue ∈ clues,
      (clue.dollar = true → ∀ d ∈ List.range' 1 sc.count,
        checkClue clue m (parseIdentifier sc d) sc = true) ∧
      (clue.dollar = false → 1 ≤ sc.count →
        checkClue clue m (parseIdentifier sc 1) sc = true) := by
  intro clues
  induction clues with
  | nil => intro _ clue hc; exact absurd hc (by simp)
  | cons c rest ih =>
    intro h clue hc
    simp only [checkCluesAll] at h
    by_cases hl : checkClueDLoop sc m c (List.range' 1 sc.count) = true
    · rw [if_pos hl] at h
      rcases List.mem_cons.mp hc with rfl | hmem
      · obtain ⟨h1, h2⟩ := checkClueDLoop_sound sc m clue _ hl
        refine ⟨h1, ?_⟩
        intro hd hcount
        obtain ⟨n, hn⟩ := Nat.exists_eq_add_of_le hcount
        have hmem1 : 1 ∈ (List.range' 1 sc.count).take 1 := by
          rw [hn, Nat.add_comm]
          simp [List.range'_succ]
        exact h2 hd 1 hmem1
      · exact ih h clue hmem
    · rw [if_neg hl] at h
      exact absurd h (by simp)

theorem validateOption_sound (sc : SolverConfig) (st : IterationState)
    (h : validateOption sc st = 1) :
    validateCategories st.matrix sc.count sc.greatCategories sc.categories true
      = some true ∧
    checkCluesAll sc st.matrix st.clues = true := by
  unfold validateOption at h
  cases hv : validateCategories st.matrix sc.count sc.greatCategories
      sc.categories true with
  | none => rw [hv] at h; simp at h
  | some allSolved =>
    rw [hv] at h
    dsimp only at h
    cases hck : checkCluesAll sc st.matrix st.clues with
    | false => rw [hck] at h; simp at h
    | true =>
      rw [hck] at h
      simp only [Bool.not_true, Bool.false_eq_true, if_false] at h
      cases allSolved with
      | false => simp at h
      | true => exact ⟨rfl, rfl⟩

theorem solveOption_sound (sc : SolverConfig) (st st' : IterationState)
    (h : solveOption sc st = (none, 1, st')) : validateOption sc st' = 1 := by
  unfold solveOption at h
  cases hl : solveLoop sc (st.matrix.countTrue + 1) st with
  | mk e st2 =>
    rw [hl] at h
    cases e with
    | some t => simp at h
    | none =>
      simp only [Prod.mk.injEq] at h
      obtain ⟨_, hv, hst⟩ := h
      rw [← hst]
      exact hv

theorem wave_mem (sc : SolverConfig) :
    ∀ (stack next : List IterationState) (sols : List Matrix) (M : Matrix),
    wave sc stack = (none, next, sols) → M ∈ sols →
    ∃ st', validateOption sc st' = 1 ∧ M = st'.matrix := by
  intro stack
  induction stack with
  | nil =>
    intro next sols M h hM
    simp only [wave, Prod.mk.injEq] at h
    rw [← h.2.2] at hM
    exact absurd hM (by simp)
  | cons st rest ih =>
    intro next sols M h hM
    simp only [wave] at h
    cases hs : solveOption sc st with
    | mk e pr =>
      rw [hs] at h
      rcases pr with ⟨code, st'⟩
      cases e with
      | some t => simp at h
      | none =>
        dsimp only at h
        cases hw : wave sc rest with
        | mk e2 pr2 =>
          rcases pr2 with ⟨childRest, solsRest⟩
          rw [hw] at h
          simp only [Prod.mk.injEq] at h
          obtain ⟨he2, _, hsols⟩ := h
          subst he2
          rw [← hsols] at hM
          rcases List.mem_append.mp hM with hL | hR
          · by_cases hc1 : code = 1
            · rw [hc1] at hL hs
              simp at hL
              exact ⟨st', solveOption_sound sc st st' hs, hL⟩
            · rw [if_neg hc1] at hL
              exact absurd hL (by simp)
          · exact ih _ _ _ hw hR

theorem runIterations_mem (sc : SolverConfig) :
    ∀ (k : Nat) (stack : List IterationState) (d : Bool)
      (rest : List IterationState) (sols : List Matrix) (M : Matrix),
    runIterations sc k stack = .ok (d, rest, sols) → M ∈ sols →
    ∃ st', validateOption sc st' = 1 ∧ M = st'.matrix := by
  intro k
  induction k with
  | zero =>
    intro stack d rest sols M h hM
    simp only [runIterations, Except.ok.injEq, Prod.mk.injEq] at h
    rw [← h.2.2] at hM
    exact absurd hM (by simp)
  | succ k ih =>
    intro stack d rest sols M h hM
    simp only [runIterations] at h
    split at h
    · simp only [Except.ok.injEq, Prod.mk.injEq] at h
      rw [← h.2.2] at hM
      exact absurd hM (by simp)
    · cases hw : wave sc stack with
      | mk e pr =>
        rw [hw] at h
        rcases pr with ⟨nextS, sols1⟩
        cases e with
        | some t => exact Except.noConfusion h
        | none =>
          dsimp only at h
          cases hri : runIterations sc k nextS with
          | error t => rw [hri] at h; exact Except.noConfusion h
          | ok r2 =>
            rcases r2 with ⟨d2, s2, sols2⟩
            rw [hri] at h
            simp only [Except.ok.injEq, Prod.mk.injEq] at h
            obtain ⟨_, _, hsols⟩ := h
            rw [← hsols] at hM
            rcases List.mem_append.mp hM with hL | hR
            · exact wave_mem sc stack nextS sols1 M hw hL
            · exact ih nextS d2 s2 sols2 M hri hR

/-- Claim C1 (amended): every matrix `runIterations` records among its
solutions is valid in shape — every strict-category row has exactly one true
cell, every column is covered by each category exactly once, every
great-category row has at most one true cell — and the clues hold exactly as
the source's `d`-loop checks them: a `$`-clue checks true for every position
`d ∈ [1, count]`, and a `$`-free clue checks true at `d = 1` provided
`count ≥ 1`.  With `count = 0` the loop checks nothing and a recorded
solution's clue can check false (see `c1_counterexample`). -/
theorem c1_solutions (sc : SolverConfig) (k : Nat) (stack : List IterationState)
    (d : Bool) (rest : List IterationState) (sols : List Matrix) (M : Matrix)
    (hrun : runIterations sc k stack = .ok (d, rest, sols)) (hM : M ∈ sols) :
    ∃ st : IterationState, M = st.matrix ∧
      (∀ pr ∈ sc.categories, ∀ item ∈ pr.2,
        (M.getRow (pr.1 ++ "." ++ item)).countP (fun b => b) ≤ 1) ∧
      (∀ pr ∈ sc.categories, sc.greatCategories.contains pr.1 = false →
        ∀ item ∈ pr.2,
          (M.getRow (pr.1 ++ "." ++ item)).countP (fun b => b) = 1) ∧
      (∀ pr ∈ sc.categories, ∀ col, col < sc.count →
        pr.2.countP (fun it => M.getCell (pr.1 ++ "." ++ it) col) = 1) ∧
      (∀ clue ∈ st.clues,
        (clue.dollar = true → ∀ d2 ∈ List.range' 1 sc.count,
          checkClue clue M (parseIdentifier sc d2) sc = true) ∧
        (clue.dollar = false → 1 ≤ sc.count →
          checkClue clue M (parseIdentifier sc 1) sc = true)) := by
  obtain ⟨st', hvo, hMeq⟩ := runIterations_mem sc k stack d rest sols M hrun hM
  obtain ⟨hvc, hcc⟩ := validateOption_sound sc st' hvo
  obtain ⟨_, hcats⟩ := validateCategories_sound st'.matrix sc.count
    sc.greatCategories sc.categories true hvc
  subst hMeq
  refine ⟨st', rfl, ?_, ?_, ?_, ?_⟩
  · intro pr hpr item hit; exact (hcats pr hpr).1 item hit
  · intro pr hpr hg item hit; exact (hcats pr hpr).2.1 hg item hit
  · intro pr hpr col hcol; exact (hcats pr hpr).2.2 col hcol
  · exact checkCluesAll_sound sc st'.matrix st'.clues hcc

def c1cfg : SolverConfig :=
  { categories := [("c", ["a"])]
    greatCategories := []
    nameKV := [("a", "c.a")]
    itemOptions := ["c.a"]
    count := 1, combinations := generateAllCombinations 1 }

def c1m : Matrix := [("c.a", [true])]

def c1state : IterationState := ⟨c1m, []⟩

theorem c1_witness :
    ∃ st : IterationState, c1m = st.matrix ∧
      (∀ pr ∈ c1cfg.categories, ∀ item ∈ pr.2,
        (c1m.getRow (pr.1 ++ "." ++ item)).countP (fun b => b) ≤ 1) ∧
      (∀ pr ∈ c1cfg.categories, c1cfg.greatCategories.contains pr.1 = false →
        ∀ item ∈ pr.2,
          (c1m.getRow (pr.1 ++ "." ++ item)).countP (fun b => b) = 1) ∧
      (∀ pr ∈ c1cfg.categories, ∀ col, col < c1cfg.count →
        pr.2.countP (fun it => c1m.getCell (pr.1 ++ "." ++ it) col) = 1) ∧
      (∀ clue ∈ st.clues,
        (clue.dollar = true → ∀ d2 ∈ List.range' 1 c1cfg.count,
          checkClue clue c1m (parseIdentifier c1cfg d2) c1cfg = true) ∧
        (clue.dollar = false → 1 ≤ c1cfg.count →
          checkClue clue c1m (parseIdentifier c1cfg 1) c1cfg = true)) :=
  c1_solutions c1cfg 1 [c1state] true [] [c1m] c1m rfl (by simp)

def c1badcfg : SolverConfig :=
  { categories := [("c", [])]
    greatCategories := []
    nameKV := []
    itemOptions := []
    count := 0, combinations := generateAllCombinations 0 }

def c1badClue : Expr :=
  .mk (.relational "=="
    (.mk (.numericLiteral 3) none (none, none) false (1, 1))
    (.mk (.numericLiteral 5) none (none, none) false (1, 6)))
    none (none, none) false (1, 3)

/-- With a zero-item strict category (`count = 0`) the clue-verification loop
runs zero times, so the solver records the empty matrix as a solution even
though its clue `3 == 5` checks false. -/
theorem c1_counterexample :
    runIterations c1badcfg 1 [⟨[], [c1badClue]⟩] = .ok (true, [], [[]]) ∧
    checkClue c1badClue [] (parseIdentifier c1badcfg 1) c1badcfg = false := by
  constructor
  · rfl
  · simp [checkClue, checkClueThrowable, checkRelationalRight, c1badClue,
      Expr.solved, relationalOk, parseArithmetic, jsEq]

end Zebra
